import Mathlib

/-!
# simple-hexedit: a shallow embedding of `simple-hexedit.c`

Conventions of the embedding.

* A C string is a `List Char`: one `Char` per C `char`, the terminating NUL left implicit.
  `cAt s i` reads `s[i]` and yields NUL at the terminator.
* A file is a `List Nat` of bytes (each below 256); an absent file is `none`.
* `long` is the 64-bit two's-complement type of an LP64 platform, `int` is 32 bits wide and a
  conversion to `int` keeps the value modulo `2^32` (`toInt`).
* Every `exit(1)` of the program is an `Except.error` carrying the diagnostic that was printed.
* The C library and the operating system are modelled at their documented behaviour
  (`strtol`, `strcasecmp`, `isspace`, `isxdigit`, `lseek`, `write`, `fgetc`). `fopen` fails on
  an absent file and `lseek` on a negative position; whether `open` succeeds and how many
  bytes `write` transfers is given by the system (`Sys`), so that every `exit(1)` of the
  writer is reachable.
-/

namespace SimpleHexedit

/-! ## Diagnostics -/

/-- The fatal diagnostics of the program, one constructor per `exit(1)` site. -/
inductive Err where
  /-- `perror("strtol()")`: `strtol` set `errno` (the value is out of the range of `long`). -/
  | strtolErrno
  /-- "error: argument cannot be interpreted as number". -/
  | notANumber
  /-- "error: argument value outside of 8 bit range". -/
  | outside8bit
  /-- `perror("fopen()")`. -/
  | fopenFailed
  /-- "error: offset equals or exceeds filesize". -/
  | offsetExceedsSize
  /-- `perror("fseek()")`. -/
  | fseekFailed
  /-- `perror("open()")`. -/
  | openFailed
  /-- `perror("lseek()")`. -/
  | lseekFailed
  /-- `perror("write()")`. -/
  | writeFailed
  /-- "error: character ... is not a hexadecimal digit", with the character reported. -/
  | notHexDigit (c : Char)
  /-- "error: invalid argument". -/
  | invalidArgument
  /-- "error: empty argument". -/
  | emptyArgument
  /-- "error: length must be 1 or more". -/
  | lengthTooSmall
  deriving DecidableEq, Repr

/-- Results of the program are compared by decision. -/
instance instDecidableEqExcept {ε α : Type} [DecidableEq ε] [DecidableEq α] :
    DecidableEq (Except ε α)
  | .ok a, .ok b => if h : a = b then isTrue (by rw [h]) else isFalse (fun he => h (by cases he; rfl))
  | .error a, .error b =>
    if h : a = b then isTrue (by rw [h]) else isFalse (fun he => h (by cases he; rfl))
  | .ok _, .error _ => isFalse (fun he => by cases he)
  | .error _, .ok _ => isFalse (fun he => by cases he)

/-! ## Machine integers -/

/-- Largest value of `long` (LP64). -/
def LONG_MAX : Int := 2 ^ 63 - 1

/-- Smallest value of `long` (LP64). -/
def LONG_MIN : Int := -(2 ^ 63)

/-- Largest value of `int`. -/
def INT_MAX : Int := 2 ^ 31 - 1

/-- Conversion of an integer value to `int`: the value modulo `2^32`, in `[-2^31, 2^31)`. -/
def toInt (x : Int) : Int := (x + 2 ^ 31) % 2 ^ 32 - 2 ^ 31

/-! ## C library: characters and strings -/

/-- The character `s[i]` of a C string; the terminating NUL when `i` is the length. -/
def cAt (s : List Char) (i : Nat) : Char := s.getD i (Char.ofNat 0)

/-- C-locale `isspace`: space, `\t`, `\n`, `\v`, `\f`, `\r`. -/
def isspace (c : Char) : Bool := c.toNat == 32 || (9 ≤ c.toNat && c.toNat ≤ 13)

/-- C-locale `isxdigit`. -/
def isxdigit (c : Char) : Bool :=
  (48 ≤ c.toNat && c.toNat ≤ 57) || (65 ≤ c.toNat && c.toNat ≤ 70) ||
    (97 ≤ c.toNat && c.toNat ≤ 102)

/-- C-locale `tolower`, on character codes. -/
def tolower (c : Char) : Nat :=
  if 65 ≤ c.toNat ∧ c.toNat ≤ 90 then c.toNat + 32 else c.toNat

/-- The function `strcasecmp`: the difference of the first pair of characters that differ after
`tolower`, `0` when there is none. -/
def strcasecmp : List Char → List Char → Int
  | [], [] => 0
  | [], b :: _ => 0 - (tolower b : Int)
  | a :: _, [] => (tolower a : Int)
  | a :: as, b :: bs =>
    if tolower a = tolower b then strcasecmp as bs else (tolower a : Int) - (tolower b : Int)

/-- Value of a character as a digit, as `strtol` reads it: `0-9`, then letters of either case
from 10 on. -/
def digitVal (c : Char) : Option Nat :=
  if 48 ≤ c.toNat ∧ c.toNat ≤ 57 then some (c.toNat - 48)
  else if 97 ≤ c.toNat ∧ c.toNat ≤ 122 then some (c.toNat - 97 + 10)
  else if 65 ≤ c.toNat ∧ c.toNat ≤ 90 then some (c.toNat - 65 + 10)
  else none

/-- Whether `c` is a digit of base `base`. -/
def isDigitOf (base : Nat) (c : Char) : Bool :=
  match digitVal c with
  | some v => decide (v < base)
  | none => false

/-- Value of a digit string in base `base`, most significant digit first. -/
def digitsVal (base : Nat) (ds : List Char) : Nat :=
  ds.foldl (fun acc c => acc * base + (digitVal c).getD 0) 0

/-- What a call of `strtol` leaves behind: the value returned, the string at `*endptr`, and
whether `errno` was set to `ERANGE`. -/
structure StrtolResult where
  val : Int
  rest : List Char
  erange : Bool
  deriving DecidableEq, Repr

/-- The sign of the subject sequence of `strtol`, and the text after it. -/
def strtolSign : List Char → Bool × List Char
  | '-' :: t => (true, t)
  | '+' :: t => (false, t)
  | s => (false, s)

/-- The optional `0x`/`0X` that `strtol` accepts in base 16: whether it is there, and the text
after it. -/
def strtolHexMark (base : Nat) (s : List Char) : Bool × List Char :=
  if base = 16 then
    match s with
    | '0' :: x :: t => if x = 'x' ∨ x = 'X' then (true, t) else (false, s)
    | _ => (false, s)
  else (false, s)

/-- The C library function `strtol(str, &endptr, base)` for a base of 8, 10 or 16: leading
white space, an optional sign, in base 16 an optional `0x`, then the longest run of digits of
the base. With no digit at all no conversion is performed: the value is 0 and `endptr` is
`str` (after a bare `0x`, the `0` is the number and `endptr` is at the `x`). A value outside
`long` is clamped and sets `ERANGE`. -/
def strtol (str : List Char) (base : Nat) : StrtolResult :=
  let s1 := str.dropWhile isspace
  let (neg, s2) := strtolSign s1
  let (marked, s3) := strtolHexMark base s2
  let digits := s3.takeWhile (isDigitOf base)
  let rest := s3.dropWhile (isDigitOf base)
  if digits = [] then
    if marked then { val := 0, rest := s2.tail, erange := false }
    else { val := 0, rest := str, erange := false }
  else
    let mag : Int := (digitsVal base digits : Int)
    if neg then
      if mag > -LONG_MIN then { val := LONG_MIN, rest := rest, erange := true }
      else { val := -mag, rest := rest, erange := false }
    else
      if mag > LONG_MAX then { val := LONG_MAX, rest := rest, erange := true }
      else { val := mag, rest := rest, erange := false }

/-! ## Numeric literals -/

/-- The function `xstrtol`: `strtol` with error checks. -/
def xstrtol (str : List Char) (base : Nat) : Except Err Int :=
  let r := strtol str base
  if r.erange then .error .strtolErrno
  else if r.rest ≠ [] then .error .notANumber
  else .ok r.val

/-- The function `strtouchar`: convert string to unsigned char. -/
def strtouchar (str : List Char) (base : Nat) : Except Err Nat :=
  match xstrtol str base with
  | .error e => .error e
  | .ok l => if l < 0 ∨ l > 255 then .error .outside8bit else .ok (l % 256).toNat

/-- The function `hex_prefix`: check if `str` begins with `\x` or `0x` (and goes on). -/
def hex_prefix (str : List Char) : Bool :=
  (cAt str 0 == '0' || cAt str 0 == '\\') &&
    (cAt str 1 == 'x' || cAt str 1 == 'X') &&
    cAt str 2 != Char.ofNat 0

/-- The function `get_long`: convert string to long. -/
def get_long (str : List Char) : Except Err Int :=
  if hex_prefix str then
    xstrtol ('0' :: str.tail) 16
  else if cAt str 0 == '0' && cAt str 1 != Char.ofNat 0 then
    xstrtol str 8
  else
    xstrtol str 10

/-! ## Reader -/

/-- The uppercase hexadecimal digit of a value below 16. -/
def hexDigitUpper (d : Nat) : Char :=
  if d < 10 then Char.ofNat (48 + d) else Char.ofNat (55 + d)

/-- What `printf("%02X", (uint8_t)c)` prints: the two uppercase hexadecimal digits of the
byte. -/
def fmt02X (c : Nat) : List Char :=
  [hexDigitUpper (c % 256 / 16), hexDigitUpper (c % 256 % 16)]

/-- The function `fseek(fp, offset, SEEK_SET)`: `-1` for a negative position, else `0`. -/
def fseek (offset : Int) : Int := if offset < 0 then -1 else 0

/-- The loop "read and print bytes" of `read_data`: `i` is the loop counter, `fp` the bytes
that `fgetc` has still to deliver (`[]` is end of file); the result is the text printed. -/
def read_loop (len : Int) (i : Int) (fp : List Nat) : List Char :=
  match fp with
  | [] => if i < len then ['\n'] else []
  | c :: fp1 =>
    if i < len then
      let j := toInt (i + 1)
      let group :=
        if i > 0 ∧ j.tmod 4 = 0 ∧ j.tmod 16 ≠ 0 then ' ' :: fmt02X c ++ [' ']
        else ' ' :: fmt02X c
      let eol := if j = len ∨ (i > 0 ∧ j.tmod 16 = 0) then ['\n'] else []
      group ++ eol ++ read_loop len (i + 1) fp1
    else []

/-- The function `read_data`: read data and print as hex digits on screen. The result is the
text written to standard output; every error exit happens before anything is printed. -/
def read_data (arg_offset arg_length : List Char) (file : Option (List Nat)) :
    Except Err (List Char) :=
  match file with
  | none => .error .fopenFailed
  | some content =>
    let fsize : Int := content.length
    if strcasecmp arg_offset "append".toList = 0 then .error .offsetExceedsSize
    else
      match get_long arg_offset with
      | .error e => .error e
      | .ok offset =>
        if offset ≥ fsize then .error .offsetExceedsSize
        else if fseek offset = -1 then .error .fseekFailed
        else
          let lenE : Except Err Int :=
            if strcasecmp arg_length "all".toList = 0 then .ok (fsize - offset)
            else
              match get_long arg_length with
              | .error e => .error e
              | .ok len => if len < 1 then .ok (fsize - offset) else .ok len
          match lenE with
          | .error e => .error e
          | .ok len => .ok (read_loop len 0 (content.drop offset.toNat))

/-! ## Writer -/

/-- An open file descriptor: the bytes of the file and the file position. -/
structure Fd where
  content : List Nat
  pos : Nat
  deriving DecidableEq, Repr

/-- The argument `whence` of `lseek`. -/
inductive Whence where
  | SEEK_SET
  | SEEK_END
  deriving DecidableEq, Repr

/-- The system call `lseek` on a file of `size` bytes: the new position, or `-1` when that
position would be negative. -/
def lseek (size : Nat) (offset : Int) (whence : Whence) : Int :=
  let p : Int :=
    match whence with
    | .SEEK_SET => offset
    | .SEEK_END => (size : Int) + offset
  if p < 0 then -1 else p

/-- What the system does with the calls of the writer: whether
`open(file, O_RDWR | O_CREAT, 0664)` succeeds (it fails, for instance, on a file that may
neither be written nor created), and how many bytes `write` still transfers before it fails
(a full disk, a file size limit). -/
structure Sys where
  canOpen : Bool
  room : Nat
  deriving DecidableEq, Repr

/-- What `write` does to the file when it transfers the bytes `bs` at the file position:
bytes in the range are overwritten, the file grows as needed (a gap after the old end reads as
zeros), nothing else changes, and the position moves past the bytes written. -/
def sysWrite (fd : Fd) (bs : List Nat) : Fd :=
  if bs = [] then fd
  else
    { content :=
        (fd.content ++ List.replicate (fd.pos - fd.content.length) 0).take fd.pos ++ bs ++
          fd.content.drop (fd.pos + bs.length)
      pos := fd.pos + bs.length }

/-- The system call `write(fd, buf, count)`, with `bs` the `count` bytes at `buf` and `room`
the number of bytes the system still transfers: the value returned (the number of bytes
transferred, or `-1` when nothing of a non-empty request is), the descriptor and the room
afterwards. -/
def write (room : Nat) (fd : Fd) (bs : List Nat) : Int × Fd × Nat :=
  if bs ≠ [] ∧ room = 0 then (-1, fd, room)
  else
    (((bs.take room).length : Nat), sysWrite fd (bs.take room), room - (bs.take room).length)

/-- The "memset" loop of `write_to_file`: one `write` of one byte while
`written < num_bytes`, left with `break` when a `write` does not return 1; the first argument
bounds the number of iterations. -/
def memset_loop (byte : Nat) (num_bytes : Int) : Nat → Int → Fd → Nat → Int × Fd
  | 0, written, fd, _ => (written, fd)
  | fuel + 1, written, fd, room =>
    if written < num_bytes then
      let r := write room fd [byte]
      if r.1 ≠ 1 then (written, r.2.1)
      else memset_loop byte num_bytes fuel (written + 1) r.2.1 r.2.2
    else (written, fd)

/-- The function `write_to_file`: write data to file. `file` is the file before the call
(`none` when absent: `open` creates it empty), the result is its content afterwards. A failed
`open` exits at once; the result of `lseek` is stored in the `int` variable `sk`; the count
returned by `write` (or reached by the "memset" loop) is compared with `num_bytes`. -/
def write_to_file (sys : Sys) (file : Option (List Nat)) (data : List Nat) (byte : Option Nat)
    (arg_offset : List Char) (num_bytes : Int) : Except Err (List Nat) :=
  if sys.canOpen = false then .error .openFailed
  else
    let content := file.getD []
    let seek : Except Err Int :=
      if strcasecmp arg_offset "append".toList = 0 then
        .ok (lseek content.length 0 .SEEK_END)
      else
        match get_long arg_offset with
        | .error e => .error e
        | .ok off => .ok (lseek content.length off .SEEK_SET)
    match seek with
    | .error e => .error e
    | .ok p =>
      let sk := toInt p
      if sk = -1 then .error .lseekFailed
      else
        let fd : Fd := { content := content, pos := p.toNat }
        let (written, fd1) : Int × Fd :=
          match byte with
          | some b => memset_loop b num_bytes num_bytes.toNat 0 fd sys.room
          | none =>
            let r := write sys.room fd (data.take num_bytes.toNat)
            (r.1, r.2.1)
        if written ≠ num_bytes then .error .writeFailed
        else .ok fd1.content

/-! ## Hex-string decoder -/

/-- The C string held in a character buffer: the characters before the first NUL. -/
def cString (buf : List Char) : List Char := buf.takeWhile (fun c => c != Char.ofNat 0)

/-- The state of the loop of `hex_to_uchar`: `buf2` is `buf[2]` (NUL when no digit is
pending), `data` the bytes stored so far, `num_bytes` the counter. -/
structure HexState where
  buf2 : Char
  data : List Nat
  num_bytes : Nat
  deriving DecidableEq, Repr

/-- The loop "convert hex string to bytes" of `hex_to_uchar`, over the characters at `p`. -/
def hex_loop : List Char → HexState → Except Err HexState
  | [], st => .ok st
  | p :: ps, st =>
    if isspace p then hex_loop ps st
    else if isxdigit p = false then .error (.notHexDigit p)
    else if st.buf2 = Char.ofNat 0 then hex_loop ps { st with buf2 := p }
    else
      match strtouchar (cString ['0', 'x', st.buf2, p, Char.ofNat 0]) 16 with
      | .error e => .error e
      | .ok v =>
        hex_loop ps { buf2 := Char.ofNat 0, data := st.data ++ [v], num_bytes := st.num_bytes + 1 }

/-- The function `hex_to_uchar`: convert hex string to uchar array. The result is the bytes
stored into `data`, in order, and the final `*num_bytes`. -/
def hex_to_uchar (arg_data : List Char) : Except Err (List Nat × Nat) :=
  match hex_loop arg_data { buf2 := Char.ofNat 0, data := [], num_bytes := 0 } with
  | .error e => .error e
  | .ok st =>
    if st.buf2 ≠ Char.ofNat 0 then
      match strtouchar (cString ['0', 'x', st.buf2, Char.ofNat 0, Char.ofNat 0]) 16 with
      | .error e => .error e
      | .ok v => .ok (st.data ++ [v], st.num_bytes + 1)
    else .ok (st.data, st.num_bytes)

/-! ## Byte literals -/

/-- The function `get_uchar`: get single character from argument (can be an escape
sequence). -/
def get_uchar (arg_char : List Char) : Except Err Nat :=
  let len := arg_char.length
  if len = 1 then .ok ((cAt arg_char 0).toNat % 256)
  else if hex_prefix arg_char then strtouchar ('0' :: arg_char.tail) 16
  else if cAt arg_char 0 == '\\' && cAt arg_char 1 != Char.ofNat 0 then
    let control : Option Nat :=
      if len = 2 then
        match cAt arg_char 1 with
        | 'n' => some 10
        | 't' => some 9
        | 'r' => some 13
        | 'a' => some 7
        | 'b' => some 8
        | 'f' => some 12
        | 'v' => some 11
        | 'e' => some 27
        | _ => none
      else none
    match control with
    | some c => .ok c
    | none => strtouchar (arg_char.drop 1) 10
  else .error .invalidArgument

/-! ## Commands -/

/-- The function `write_data`: write `arg_data` at `arg_offset` to file. -/
def write_data (sys : Sys) (arg_offset arg_data : List Char) (file : Option (List Nat)) :
    Except Err (List Nat) :=
  if cAt arg_data 0 = Char.ofNat 0 then .error .emptyArgument
  else
    match hex_to_uchar arg_data with
    | .error e => .error e
    | .ok (data, num_bytes) => write_to_file sys file data none arg_offset num_bytes

/-- The function `memset_write_data`: create a data set of `arg_length` and write it to
file. -/
def memset_write_data (sys : Sys) (arg_offset arg_length arg_char : List Char)
    (file : Option (List Nat)) : Except Err (List Nat) :=
  match get_long arg_length with
  | .error e => .error e
  | .ok len =>
    if len < 1 then .error .lengthTooSmall
    else
      match get_uchar arg_char with
      | .error e => .error e
      | .ok c => write_to_file sys file [] (some c) arg_offset len

/-! ## File handles and standard output -/

/-- An operation on a file handle: `fopen`/`fclose` of the reader, `open`/`close` of the
writer (`open` creates the file when it is absent). Only calls that succeed are recorded. -/
inductive Event where
  | fopen
  | fclose
  | open
  | close
  deriving DecidableEq, Repr

/-- A run of a command up to its return or its `exit(1)`: the handle operations performed, in
order, the text written to standard output, and the result (`Except.error` is `exit(1)` with
that diagnostic on standard error). -/
structure Run (α : Type) where
  events : List Event
  stdout : List Char
  result : Except Err α

/-- What `printf("%ld", n)` prints. -/
def fmt_ld (n : Int) : List Char := (toString n).toList

/-- The function `read_data` with its handle operations: `get_long` exits inside `xstrtol`,
every other error path calls `fclose` first. -/
def read_data_run (arg_offset arg_length : List Char) (file : Option (List Nat)) : Run Unit :=
  match file with
  | none => ⟨[], [], .error .fopenFailed⟩
  | some content =>
    let fsize : Int := content.length
    if strcasecmp arg_offset "append".toList = 0 then
      ⟨[.fopen, .fclose], [], .error .offsetExceedsSize⟩
    else
      match get_long arg_offset with
      | .error e => ⟨[.fopen], [], .error e⟩
      | .ok offset =>
        if offset ≥ fsize then ⟨[.fopen, .fclose], [], .error .offsetExceedsSize⟩
        else if fseek offset = -1 then ⟨[.fopen, .fclose], [], .error .fseekFailed⟩
        else
          let lenE : Except Err Int :=
            if strcasecmp arg_length "all".toList = 0 then .ok (fsize - offset)
            else
              match get_long arg_length with
              | .error e => .error e
              | .ok len => if len < 1 then .ok (fsize - offset) else .ok len
          match lenE with
          | .error e => ⟨[.fopen], [], .error e⟩
          | .ok len => ⟨[.fopen, .fclose], read_loop len 0 (content.drop offset.toNat), .ok ()⟩

/-- The function `write_to_file` with its handle operations and its message on standard
output; `name` is the path of the file. A failed `open` leaves no handle, `get_long` exits
inside `xstrtol`, the other error paths call `close` first. -/
def write_to_file_run (sys : Sys) (name : List Char) (file : Option (List Nat))
    (data : List Nat) (byte : Option Nat) (arg_offset : List Char) (num_bytes : Int) :
    Run (List Nat) :=
  if sys.canOpen = false then ⟨[], [], .error .openFailed⟩
  else
    let content := file.getD []
    let seek : Except Err Int :=
      if strcasecmp arg_offset "append".toList = 0 then
        .ok (lseek content.length 0 .SEEK_END)
      else
        match get_long arg_offset with
        | .error e => .error e
        | .ok off => .ok (lseek content.length off .SEEK_SET)
    match seek with
    | .error e => ⟨[.open], [], .error e⟩
    | .ok p =>
      let sk := toInt p
      if sk = -1 then ⟨[.open, .close], [], .error .lseekFailed⟩
      else
        let fd : Fd := { content := content, pos := p.toNat }
        let (written, fd1) : Int × Fd :=
          match byte with
          | some b => memset_loop b num_bytes num_bytes.toNat 0 fd sys.room
          | none =>
            let r := write sys.room fd (data.take num_bytes.toNat)
            (r.1, r.2.1)
        if written ≠ num_bytes then ⟨[.open, .close], [], .error .writeFailed⟩
        else
          ⟨[.open, .close],
            fmt_ld num_bytes ++ " bytes successfully written to `".toList ++ name ++
              "'\n".toList,
            .ok fd1.content⟩

/-- The function `write_data` with its handle operations. -/
def write_data_run (sys : Sys) (arg_offset arg_data name : List Char)
    (file : Option (List Nat)) : Run (List Nat) :=
  if cAt arg_data 0 = Char.ofNat 0 then ⟨[], [], .error .emptyArgument⟩
  else
    match hex_to_uchar arg_data with
    | .error e => ⟨[], [], .error e⟩
    | .ok (data, num_bytes) => write_to_file_run sys name file data none arg_offset num_bytes

/-- The function `memset_write_data` with its handle operations. -/
def memset_write_data_run (sys : Sys) (arg_offset arg_length arg_char name : List Char)
    (file : Option (List Nat)) : Run (List Nat) :=
  match get_long arg_length with
  | .error e => ⟨[], [], .error e⟩
  | .ok len =>
    if len < 1 then ⟨[], [], .error .lengthTooSmall⟩
    else
      match get_uchar arg_char with
      | .error e => ⟨[], [], .error e⟩
      | .ok c => write_to_file_run sys name file [] (some c) arg_offset len

/-! ## Command dispatcher -/

/-- The function `strrchr(s, c)`: the string from the last occurrence of `c` on. -/
def strrchr : List Char → Char → Option (List Char)
  | [], _ => none
  | x :: t, c =>
    match strrchr t c with
    | some r => some r
    | none => if x = c then some (x :: t) else none

/-- The function `print_usage`: the text it prints (with `printf`, on standard output). -/
def print_usage (self : List Char) : List Char :=
  let self1 :=
    match strrchr self '/' with
    | some p => if cAt p 1 ≠ Char.ofNat 0 then p.drop 1 else self
    | none => self
  "usage:\n".toList ++
    "  ".toList ++ self1 ++ " --help\n".toList ++
    "  ".toList ++ self1 ++ " r[ead] [<offset> <length>] <file>\n".toList ++
    "  ".toList ++ self1 ++ " w[rite] <offset> <data> <file>\n".toList ++
    "  ".toList ++ self1 ++ " m[emset] <offset> <length> <char> <file>\n".toList

/-- The function `show_help`: the text it prints (on standard output). -/
def show_help (self : List Char) : List Char :=
  print_usage self ++
    ("\n\n" ++
      "  read, write, memset: <offset> and <length> may be hexadecimal prefixed with\n" ++
      "    `0x' or `\\x', an octal number prefixed with `0' or decimal\n" ++
      "\n" ++
      "  read: <length> set to 0 or `all' will print all bytes\n" ++
      "\n" ++
      "  write, memset: <offset> set to `append' will write data directly after the\n" ++
      "    end of the file\n" ++
      "\n" ++
      "  write: <data> must be hexadecimal without prefixes (whitespaces are ignored)\n" ++
      "\n" ++
      "  write: <char> can be a literal character, escaped control character,\n" ++
      "    hexadecimal value prefixed with `0x' or `\\x', an octal number prefixed\n" ++
      "    with `0' or a decimal number prefixed with `\\'\n" ++
      "\n").toList

/-- The function `is_cmd`. -/
def is_cmd (arg cmd1 cmd2 : List Char) : Bool :=
  strcasecmp arg cmd1 == 0 || strcasecmp arg cmd2 == 0

/-- What a run of the program leaves behind: the exit status, the text on standard output,
the diagnostic on standard error (if any) and the handle operations performed. -/
structure Outcome where
  exit : Nat
  stdout : List Char
  stderr : Option Err
  events : List Event
  deriving DecidableEq, Repr

/-- The outcome of `main` when it has called a command: `return 0` after the command has
returned, exit status 1 when the command has called `exit(1)`. -/
def outcomeOf {α : Type} (r : Run α) : Outcome :=
  match r.result with
  | .ok _ => ⟨0, r.stdout, none, r.events⟩
  | .error e => ⟨1, r.stdout, some e, r.events⟩

/-- The function `main`: `self` is `argv[0]`, `args` are `argv[1]` to `argv[argc-1]`,
`fs` gives the content of the file at a path (`none` when there is no such file), and `sys` is
what the system does with the calls of the writer. -/
def main (sys : Sys) (self : List Char) (args : List (List Char))
    (fs : List Char → Option (List Nat)) : Outcome :=
  let usage : Outcome := ⟨1, print_usage self, none, []⟩
  match args with
  | [a1] =>
    if a1 = "--help".toList then ⟨0, show_help self, none, []⟩ else usage
  | [a_cmd, a2] =>
    if is_cmd a_cmd "r".toList "read".toList then
      outcomeOf (read_data_run "0".toList "all".toList (fs a2))
    else usage
  | [a_cmd, a2, a3, a4] =>
    if is_cmd a_cmd "r".toList "read".toList then
      outcomeOf (read_data_run a2 a3 (fs a4))
    else if is_cmd a_cmd "w".toList "write".toList then
      outcomeOf (write_data_run sys a2 a3 a4 (fs a4))
    else usage
  | [a_cmd, a2, a3, a4, a5] =>
    if is_cmd a_cmd "m".toList "memset".toList then
      outcomeOf (memset_write_data_run sys a2 a3 a4 a5 (fs a5))
    else usage
  | _ => usage

/-! ## Vocabulary of the statements -/

/-- Value of a hexadecimal (or any) digit character; `0` for a character that is no digit. -/
def hexVal (c : Char) : Nat := (digitVal c).getD 0

/-- The value of a digit string in base `base` as a positional numeral: the digits, least
significant first, read by `Nat.ofDigits`. -/
def numeral (base : Nat) (ds : List Char) : Nat :=
  Nat.ofDigits base (ds.reverse.map hexVal)

/-- Pairing of hexadecimal digit values left to right, the first digit of a pair being the
high nibble; a last digit left over forms a byte of its own. -/
def pairBytes : List Nat → List Nat
  | [] => []
  | [d] => [d]
  | h :: l :: t => (16 * h + l) :: pairBytes t

/-- Reference definition of hex-string decoding: delete the white space, read each remaining
character as a digit, pair the digits up. -/
def decodeRef (s : List Char) : List Nat :=
  pairBytes ((s.filter (fun c => !isspace c)).map hexVal)

/-- A separator of the hex dump: a space or a newline. -/
def isSep (c : Char) : Bool := c == ' ' || c == '\n'

/-- Splitting of a text at separators, `cur` being the group under construction; empty groups
are dropped. -/
def groupsFrom : List Char → List Char → List (List Char)
  | cur, [] => if cur = [] then [] else [cur]
  | cur, c :: cs =>
    if isSep c then (if cur = [] then groupsFrom [] cs else cur :: groupsFrom [] cs)
    else groupsFrom (cur ++ [c]) cs

/-- The groups of a printed text: its maximal runs of characters other than space and
newline, in order. -/
def hexGroups (out : List Char) : List (List Char) := groupsFrom [] out

/-- The result of `strtol` on the magnitude `n` of an unsigned digit run that ends the string. -/
def strtolOfNat (n : Nat) : StrtolResult :=
  if (n : Int) > LONG_MAX then { val := LONG_MAX, rest := [], erange := true }
  else { val := n, rest := [], erange := false }

/-- The base that `get_long` selects for a literal. -/
def litBase (s : List Char) : Nat :=
  if hex_prefix s then 16
  else if cAt s 0 == '0' && cAt s 1 != Char.ofNat 0 then 8
  else 10

/-- The part of a literal that follows its prefix, as the specification delimits it: the text
after `0x`/`0X`/`\x`/`\X` for a hex literal, the whole string for an octal literal, the string
without an optional leading sign for a decimal literal. -/
def litBodyClaimed (s : List Char) : List Char :=
  if hex_prefix s then s.drop 2
  else if cAt s 0 == '0' && cAt s 1 != Char.ofNat 0 then s
  else (strtolSign s).2

/-- The part of a literal whose characters must all be digits: as `litBodyClaimed`, but for a
decimal literal leading white space is dropped before the optional sign. -/
def litBody (s : List Char) : List Char :=
  if hex_prefix s then s.drop 2
  else if cAt s 0 == '0' && cAt s 1 != Char.ofNat 0 then s
  else (strtolSign (s.dropWhile isspace)).2

/-- Whether a decimal literal carries a minus sign (after its leading white space); a hex or
octal literal carries none. -/
def litNegative (s : List Char) : Bool :=
  if hex_prefix s then false
  else if cAt s 0 == '0' && cAt s 1 != Char.ofNat 0 then false
  else (strtolSign (s.dropWhile isspace)).1

/-- The digits of a literal that come before its first character that is no digit of the base
selected. -/
def litRun (s : List Char) : List Char :=
  (litBody s).takeWhile (isDigitOf (litBase s))

/-- Whether a number of magnitude `mag` exceeds a long: more than `2^63 - 1`, or with a minus
sign more than `2^63`. -/
def exceedsLong (neg : Bool) (mag : Nat) : Bool :=
  if neg then decide ((mag : Int) > -LONG_MIN) else decide ((mag : Int) > LONG_MAX)

/-- The code of `hex_to_uchar` after its loop: the "trailing single-digit hex number". -/
def hexFinish (st : HexState) : Except Err (List Nat × Nat) :=
  if st.buf2 ≠ Char.ofNat 0 then
    match strtouchar (cString ['0', 'x', st.buf2, Char.ofNat 0, Char.ofNat 0]) 16 with
    | .error e => .error e
    | .ok v => .ok (st.data ++ [v], st.num_bytes + 1)
  else .ok (st.data, st.num_bytes)

/-- The loop of `hex_to_uchar` from the state `st`, followed by the code after the loop. -/
def hexRun (ps : List Char) (st : HexState) : Except Err (List Nat × Nat) :=
  match hex_loop ps st with
  | .error e => .error e
  | .ok st1 => hexFinish st1

/-- The digit values of a hex string, its white space deleted. -/
def hexDigitsOf (s : List Char) : List Nat :=
  (s.filter (fun c => !isspace c)).map hexVal

/-- The control-character code named by the letter of a two-character escape. -/
def escapeCode (c : Char) : Option Nat :=
  match c with
  | 'n' => some 10
  | 't' => some 9
  | 'r' => some 13
  | 'a' => some 7
  | 'b' => some 8
  | 'f' => some 12
  | 'v' => some 11
  | 'e' => some 27
  | _ => none

/-- A string with a `0x`/`0X`/`\x`/`\X` mark and at least one further character. -/
def hasHexMark (s : List Char) : Bool :=
  match s with
  | p :: x :: _ :: _ => (p == '0' || p == '\\') && (x == 'x' || x == 'X')
  | _ => false

/-- The byte written by a non-empty string of digits of base `base`: its value when that is at
most 255, nothing otherwise (also when a character is no digit of the base). -/
def byteOfDigits (base : Nat) (ds : List Char) : Option Nat :=
  if ds ≠ [] ∧ ds.all (isDigitOf base) = true ∧ numeral base ds ≤ 255 then
    some (numeral base ds)
  else none

/-- The byte written by a decimal number that may start with white space and a sign: a
negative number is a byte only when it is zero. -/
def byteOfSigned (r : List Char) : Option Nat :=
  let sd := strtolSign (r.dropWhile isspace)
  if sd.1 then
    (if sd.2 ≠ [] ∧ sd.2.all (isDigitOf 10) = true ∧ numeral 10 sd.2 = 0 then some 0 else none)
  else byteOfDigits 10 sd.2

/-- Reference definition of the byte literal parser by the precedence rules as the
specification states them; `none` is failure. -/
def get_uchar_claimed (s : List Char) : Option Nat :=
  match s with
  | [c] => some (c.toNat % 256)
  | _ =>
    if hasHexMark s then byteOfDigits 16 (s.drop 2)
    else
      match s with
      | '\\' :: r =>
        match (if r.length = 1 then escapeCode (cAt r 0) else none) with
        | some v => some v
        | none => byteOfDigits 10 r
      | _ => none

/-- Reference definition of the byte literal parser, with the decimal branch as the code has
it: after the backslash, optional white space and an optional sign precede the digits. -/
def get_uchar_ref (s : List Char) : Option Nat :=
  match s with
  | [c] => some (c.toNat % 256)
  | _ =>
    if hasHexMark s then byteOfDigits 16 (s.drop 2)
    else
      match s with
      | '\\' :: r =>
        match (if r.length = 1 then escapeCode (cAt r 0) else none) with
        | some v => some v
        | none => byteOfSigned r
      | _ => none

/-- A group of the hex dump at position `k` of its line (counted from 1): one space, the two
hexadecimal digits of the byte, and one additional space after the 4th, 8th and 12th group. -/
def dumpGroup (k : Nat) (b : Nat) : List Char :=
  ' ' :: fmt02X b ++ (if k = 4 ∨ k = 8 ∨ k = 12 then [' '] else [])

/-- The groups of a line of the hex dump that follow the first `k` groups, and the newline
that ends the line. -/
def dumpLineFrom (k : Nat) : List Nat → List Char
  | [] => ['\n']
  | b :: bs => dumpGroup (k + 1) b ++ dumpLineFrom (k + 1) bs

/-- A line of the hex dump: the groups of its bytes, then one newline. -/
def dumpLine (bs : List Nat) : List Char := dumpLineFrom 0 bs

/-- The lines of the hex dump of `bs`, sixteen bytes to a line, the last line holding the
bytes that remain; `fuel` bounds the number of lines. -/
def dumpLines : Nat → List Nat → List Char
  | 0, _ => []
  | fuel + 1, bs => if bs = [] then [] else dumpLine (bs.take 16) ++ dumpLines fuel (bs.drop 16)

/-- Reference layout of the hex dump of the bytes `bs`. -/
def dumpRef (bs : List Nat) : List Char := dumpLines bs.length bs

/-- The string `s` is the word `w` in some letter case. -/
def isWord (w : String) (s : List Char) : Prop := s.map tolower = w.toList.map tolower

instance instDecidableIsWord (w : String) (s : List Char) : Decidable (isWord w s) := by
  unfold isWord
  exact inferInstance

/-- A character that `hex_to_uchar` rejects: neither white space nor a hexadecimal digit. -/
def isBadHex (c : Char) : Bool := !isspace c && !isxdigit c

/-- The position that `write_to_file` asks `lseek` for, as `lseek` returns it. -/
def seekOf (content : List Nat) (arg_offset : List Char) : Except Err Int :=
  if strcasecmp arg_offset "append".toList = 0 then
    .ok (lseek content.length 0 .SEEK_END)
  else
    match get_long arg_offset with
    | .error e => .error e
    | .ok off => .ok (lseek content.length off .SEEK_SET)

/-- The bytes that `write_to_file` hands to `write`: `num_bytes` copies of the fill byte, or
the first `num_bytes` bytes of `data`. -/
def bytesWritten (data : List Nat) (byte : Option Nat) (num_bytes : Int) : List Nat :=
  match byte with
  | some b => List.replicate num_bytes.toNat b
  | none => data.take num_bytes.toNat

/-- The frame of a write of `n` bytes at offset `O`: the file `F1` afterwards has size
`max(|F|, O + n)`, every byte at a position below `O` is as in `F`, and every byte of `F` at a
position `>= O + n` is unchanged at the same position. -/
def Frame (F F1 : List Nat) (O n : Nat) : Prop :=
  F1.length = max F.length (O + n) ∧
  (∀ i, i < O → F1[i]? = F[i]?) ∧
  (∀ i, O + n ≤ i → i < F.length → F1[i]? = F[i]?)

/-- The argument `cmd` is one of the two names of a command, in some letter case. -/
def isCommand (short long : String) (cmd : List Char) : Prop :=
  isWord short cmd ∨ isWord long cmd

/-- The accepted shapes of the arguments `argv[1..]`: `--help` alone; `r`/`read` followed by 1
or by 3 arguments; `w`/`write` followed by 3 arguments; `m`/`memset` followed by 4
arguments. -/
def acceptedShape (args : List (List Char)) : Prop :=
  args = ["--help".toList] ∨
  (∃ cmd f, args = [cmd, f] ∧ isCommand "r" "read" cmd) ∨
  (∃ cmd a b f, args = [cmd, a, b, f] ∧
    (isCommand "r" "read" cmd ∨ isCommand "w" "write" cmd)) ∨
  (∃ cmd a b c f, args = [cmd, a, b, c, f] ∧ isCommand "m" "memset" cmd)

/-- A system on which `open` succeeds and `write` transfers `room` bytes before it fails. -/
def sysRoom (room : Nat) : Sys := ⟨true, room⟩

/-- A system on which `open` fails: the file may neither be written nor created. -/
def sysNoOpen : Sys := ⟨false, 0⟩

/-- A file system without files. -/
def noFiles : List Char → Option (List Nat) := fun _ => none

/-- Whether a handle is open after the handle operations `evs`. -/
def openAtExit (evs : List Event) : Bool :=
  evs.foldl (fun _ e => e == Event.fopen || e == Event.open) false

/-! ## Lemmas: characters -/

/-- The digit values of the twenty-two hexadecimal digits. -/
theorem hexVal_table :
    "0123456789abcdefABCDEF".toList.map hexVal
      = [0, 1, 2, 3, 4, 5, 6, 7, 8, 9, 10, 11, 12, 13, 14, 15, 10, 11, 12, 13, 14, 15] := by
  decide

theorem isxdigit_digitVal {c : Char} (h : isxdigit c = true) :
    ∃ v, digitVal c = some v ∧ v < 16 := by
  unfold isxdigit at h
  unfold digitVal
  simp only [Bool.or_eq_true, Bool.and_eq_true, decide_eq_true_eq] at h
  generalize c.toNat = n at *
  split_ifs <;> first | exact ⟨_, rfl, by omega⟩ | omega

theorem isxdigit_isDigitOf {c : Char} (h : isxdigit c = true) : isDigitOf 16 c = true := by
  obtain ⟨v, hv, hlt⟩ := isxdigit_digitVal h
  simp [isDigitOf, hv, hlt]

theorem isDigitOf_not_isspace {b : Nat} {c : Char} (h : isDigitOf b c = true) :
    isspace c = false := by
  unfold isDigitOf digitVal at h
  unfold isspace
  generalize c.toNat = n at *
  split_ifs at h <;> simp_all <;> omega

theorem isDigitOf_toNat_ge {b : Nat} {c : Char} (h : isDigitOf b c = true) : 48 ≤ c.toNat := by
  unfold isDigitOf digitVal at h
  generalize c.toNat = n at *
  split_ifs at h <;> simp_all <;> omega

theorem isDigitOf_hexVal_lt {b : Nat} {c : Char} (h : isDigitOf b c = true) : hexVal c < b := by
  unfold isDigitOf at h
  unfold hexVal
  cases hd : digitVal c with
  | none => simp [hd] at h
  | some v => simpa [hd] using h

theorem isDigitOf_mono {a b : Nat} (hab : a ≤ b) {c : Char} (h : isDigitOf a c = true) :
    isDigitOf b c = true := by
  unfold isDigitOf at *
  cases hd : digitVal c with
  | none => simp [hd] at h
  | some v =>
    simp only [hd, decide_eq_true_eq] at h ⊢
    omega

/-! ## Lemmas: `strtol` -/

theorem dropWhile_isspace_cons {c : Char} (t : List Char) (h : isspace c = false) :
    (c :: t).dropWhile isspace = c :: t := by
  simp [List.dropWhile_cons, h]

theorem strtolSign_cons {c : Char} (t : List Char) (h : 48 ≤ c.toNat) :
    strtolSign (c :: t) = (false, c :: t) := by
  unfold strtolSign
  split
  · rename_i heq
    simp only [List.cons.injEq] at heq
    rw [heq.1] at h
    exact absurd h (by decide)
  · rename_i heq
    simp only [List.cons.injEq] at heq
    rw [heq.1] at h
    exact absurd h (by decide)
  · rfl

theorem strtolHexMark_digits {b : Nat} {s : List Char} (h : ∀ c ∈ s, isDigitOf 16 c = true) :
    strtolHexMark b s = (false, s) := by
  unfold strtolHexMark
  split_ifs with hb
  · split
    · rename_i x t
      have hx : isDigitOf 16 x = true := h x (by simp)
      split_ifs with hxx
      · rcases hxx with rfl | rfl
        · exact absurd hx (by decide)
        · exact absurd hx (by decide)
      · rfl
    · rfl
  · rfl

theorem strtolHexMark_ne16 {b : Nat} (s : List Char) (h : b ≠ 16) :
    strtolHexMark b s = (false, s) := by
  simp [strtolHexMark, h]

theorem takeWhile_all {α : Type} {p : α → Bool} {l : List α} (h : ∀ c ∈ l, p c = true) :
    l.takeWhile p = l := by
  induction l with
  | nil => rfl
  | cons a t ih =>
    have ha : p a = true := h a (by simp)
    simp only [List.takeWhile_cons, ha, if_true]
    rw [ih (fun c hc => h c (by simp [hc]))]

theorem dropWhile_all {α : Type} {p : α → Bool} {l : List α} (h : ∀ c ∈ l, p c = true) :
    l.dropWhile p = [] := by
  induction l with
  | nil => rfl
  | cons a t ih =>
    have ha : p a = true := h a (by simp)
    simp only [List.dropWhile_cons, ha, if_true]
    exact ih (fun c hc => h c (by simp [hc]))

theorem strtol_of_body {b : Nat} {str s3 : List Char} (marked : Bool)
    (h1 : strtolHexMark b (strtolSign (str.dropWhile isspace)).2 = (marked, s3))
    (hneg : (strtolSign (str.dropWhile isspace)).1 = false)
    (hne : s3 ≠ []) (hall : ∀ c ∈ s3, isDigitOf b c = true) :
    strtol str b = strtolOfNat (digitsVal b s3) := by
  unfold strtol strtolOfNat
  simp only []
  rw [h1]
  simp only [hneg, takeWhile_all hall, dropWhile_all hall, hne, if_false, Bool.false_eq_true]

theorem strtol_digits {b : Nat} {ds : List Char} (hne : ds ≠ [])
    (hall : ∀ c ∈ ds, isDigitOf b c = true) (hb : b ≤ 16) :
    strtol ds b = strtolOfNat (digitsVal b ds) := by
  obtain ⟨c, t, rfl⟩ := List.exists_cons_of_ne_nil hne
  have hc : isDigitOf b c = true := hall c (by simp)
  have h16 : ∀ x ∈ c :: t, isDigitOf 16 x = true := fun x hx => isDigitOf_mono hb (hall x hx)
  apply strtol_of_body false _ _ hne hall
  · rw [dropWhile_isspace_cons t (isDigitOf_not_isspace hc),
      strtolSign_cons t (isDigitOf_toNat_ge hc)]
    exact strtolHexMark_digits h16
  · rw [dropWhile_isspace_cons t (isDigitOf_not_isspace hc),
      strtolSign_cons t (isDigitOf_toNat_ge hc)]

theorem strtol_hex_marked {x : Char} {h : List Char} (hx : x = 'x' ∨ x = 'X') (hne : h ≠ [])
    (hall : ∀ c ∈ h, isDigitOf 16 c = true) :
    strtol ('0' :: x :: h) 16 = strtolOfNat (digitsVal 16 h) := by
  apply strtol_of_body true _ _ hne hall
  · rw [dropWhile_isspace_cons _ (by decide), strtolSign_cons _ (by decide)]
    simp [strtolHexMark, hx]
  · rw [dropWhile_isspace_cons _ (by decide), strtolSign_cons _ (by decide)]

theorem xstrtol_strtolOfNat {str : List Char} {b n : Nat} (h : strtol str b = strtolOfNat n)
    (hfit : (n : Int) ≤ LONG_MAX) : xstrtol str b = .ok (n : Int) := by
  unfold xstrtol
  rw [h]
  unfold strtolOfNat
  have : ¬ ((n : Int) > LONG_MAX) := by omega
  simp [this]

theorem xstrtol_strtolOfNat_big {str : List Char} {b n : Nat} (h : strtol str b = strtolOfNat n)
    (hbig : (n : Int) > LONG_MAX) : xstrtol str b = .error .strtolErrno := by
  unfold xstrtol
  rw [h]
  unfold strtolOfNat
  simp [hbig]

theorem digitsVal_foldl (b : Nat) (ds : List Char) (acc : Nat) :
    ds.foldl (fun a c => a * b + (digitVal c).getD 0) acc
      = acc * b ^ ds.length + digitsVal b ds := by
  unfold digitsVal
  induction ds generalizing acc with
  | nil => simp
  | cons c t ih =>
    simp only [List.foldl_cons, List.length_cons]
    rw [ih (acc * b + (digitVal c).getD 0), ih (0 * b + (digitVal c).getD 0)]
    ring

theorem digitsVal_append_singleton (b : Nat) (t : List Char) (c : Char) :
    digitsVal b (t ++ [c]) = digitsVal b t * b + hexVal c := by
  unfold digitsVal hexVal
  simp [List.foldl_append]

theorem digitsVal_eq_numeral (b : Nat) (ds : List Char) : digitsVal b ds = numeral b ds := by
  unfold numeral
  induction ds using List.reverseRecOn with
  | nil => simp [digitsVal]
  | append_singleton t c ih =>
    rw [digitsVal_append_singleton, ih]
    simp [Nat.ofDigits_cons]
    ring

/-! ## Lemmas: `get_long` -/

theorem cAt_zero (c : Char) (t : List Char) : cAt (c :: t) 0 = c := rfl

theorem cAt_succ (c : Char) (t : List Char) (i : Nat) : cAt (c :: t) (i + 1) = cAt t i := by
  simp [cAt]

theorem isDigitOf_ne_nul {b : Nat} {c : Char} (h : isDigitOf b c = true) : c ≠ Char.ofNat 0 := by
  rintro rfl
  exact absurd (isDigitOf_toNat_ge h) (by decide)

theorem get_long_hex {c0 x : Char} {h : List Char} (hc0 : c0 = '0' ∨ c0 = '\\')
    (hx : x = 'x' ∨ x = 'X') (hne : h ≠ []) (hall : ∀ c ∈ h, isDigitOf 16 c = true) :
    get_long (c0 :: x :: h) = xstrtol ('0' :: x :: h) 16 := by
  obtain ⟨d, t, rfl⟩ := List.exists_cons_of_ne_nil hne
  have hd : d ≠ Char.ofNat 0 := isDigitOf_ne_nul (hall d (by simp))
  have hp : hex_prefix (c0 :: x :: d :: t) = true := by
    unfold hex_prefix
    simp only [cAt_zero, cAt_succ]
    rcases hc0 with rfl | rfl <;> rcases hx with rfl | rfl <;> simp [hd]
  unfold get_long
  simp [hp]

theorem get_long_hex_fit {c0 x : Char} {h : List Char} (hc0 : c0 = '0' ∨ c0 = '\\')
    (hx : x = 'x' ∨ x = 'X') (hne : h ≠ []) (hall : ∀ c ∈ h, isxdigit c = true)
    (hfit : (numeral 16 h : Int) ≤ LONG_MAX) :
    get_long (c0 :: x :: h) = .ok (numeral 16 h : Int) := by
  have hall16 : ∀ c ∈ h, isDigitOf 16 c = true := fun c hc => isxdigit_isDigitOf (hall c hc)
  rw [get_long_hex hc0 hx hne hall16, ← digitsVal_eq_numeral]
  rw [← digitsVal_eq_numeral] at hfit
  exact xstrtol_strtolOfNat (strtol_hex_marked hx hne hall16) hfit

theorem get_long_octal_branch {s : List Char} (h0 : s.head? = some '0') (hlen : 1 < s.length)
    (hp : hex_prefix s = false) (hall : ∀ c ∈ s.tail, isDigitOf 8 c = true) :
    get_long s = xstrtol s 8 ∧ ∀ c ∈ s, isDigitOf 8 c = true := by
  match s, h0, hlen, hp, hall with
  | c :: d :: t, h0, _, hp, hall =>
    simp only [List.head?_cons, Option.some.injEq] at h0
    subst h0
    have hd : d ≠ Char.ofNat 0 := isDigitOf_ne_nul (hall d (by simp))
    constructor
    · unfold get_long
      simp [hp, cAt_zero, cAt_succ, hd]
    · intro c hc
      rcases List.mem_cons.1 hc with rfl | hc
      · decide
      · exact hall c hc

theorem get_long_decimal_branch {s : List Char} (hne : s ≠ [])
    (hall : ∀ c ∈ s, isDigitOf 10 c = true) (hlead : s.head? ≠ some '0' ∨ s = ['0']) :
    get_long s = xstrtol s 10 := by
  rcases hlead with hlead | rfl
  · obtain ⟨c, t, rfl⟩ := List.exists_cons_of_ne_nil hne
    have hc : isDigitOf 10 c = true := hall c (by simp)
    have h0 : c ≠ '0' := by simpa using hlead
    have hb : c ≠ '\\' := by
      rintro rfl
      exact absurd hc (by decide)
    unfold get_long hex_prefix
    simp [cAt_zero, h0, hb]
  · rfl

/-! ## Numeric literals: base selection (C6) and decimal literals (C7) -/

/-- C6, counterexample: the string of `0` followed by twenty-two `7` starts with `0`, is longer
than one character, is not hex-prefixed and consists of octal digits, but `get_long` does not
return its base-8 value `2^66 - 1`: the value does not fit `long` and the call fails. -/
theorem get_long_octal_overflow :
    (('0' :: List.replicate 22 '7').head? = some '0' ∧
      1 < ('0' :: List.replicate 22 '7').length ∧
      hex_prefix ('0' :: List.replicate 22 '7') = false ∧
      (List.replicate 22 '7').all (isDigitOf 8) = true) ∧
    numeral 8 ('0' :: List.replicate 22 '7') = 2 ^ 66 - 1 ∧
    get_long ('0' :: List.replicate 22 '7') = .error .strtolErrno := by
  refine ⟨⟨rfl, by decide, by decide, by decide⟩, ?_, ?_⟩
  · rw [← digitsVal_eq_numeral]
    decide
  · decide

/-- C6 (amended): for every non-empty string `h` of hexadecimal digits whose value fits a
signed long, `get_long` returns the base-16 value of `h` for each of `0x`+h, `0X`+h, `\x`+h
and `\X`+h; for every string that starts with `0`, is longer than one character, is not
hex-prefixed, otherwise consists of octal digits and whose base-8 value fits a signed long,
it returns the base-8 value; `0x1F`, `\x1F` and `0X1f` give 31, `017` gives 15, `17` gives
17. -/
theorem get_long_base_selection :
    (∀ h : List Char, h ≠ [] → (∀ c ∈ h, isxdigit c = true) →
      (numeral 16 h : Int) ≤ LONG_MAX →
        get_long ('0' :: 'x' :: h) = .ok (numeral 16 h : Int) ∧
        get_long ('0' :: 'X' :: h) = .ok (numeral 16 h : Int) ∧
        get_long ('\\' :: 'x' :: h) = .ok (numeral 16 h : Int) ∧
        get_long ('\\' :: 'X' :: h) = .ok (numeral 16 h : Int)) ∧
    (∀ s : List Char, s.head? = some '0' → 1 < s.length → hex_prefix s = false →
      (∀ c ∈ s.tail, isDigitOf 8 c = true) → (numeral 8 s : Int) ≤ LONG_MAX →
        get_long s = .ok (numeral 8 s : Int)) ∧
    get_long "0x1F".toList = .ok 31 ∧ get_long "\\x1F".toList = .ok 31 ∧
    get_long "0X1f".toList = .ok 31 ∧ get_long "017".toList = .ok 15 ∧
    get_long "17".toList = .ok 17 := by
  refine ⟨?_, ?_, by decide, by decide, by decide, by decide, by decide⟩
  · intro h hne hall hfit
    exact ⟨get_long_hex_fit (Or.inl rfl) (Or.inl rfl) hne hall hfit,
      get_long_hex_fit (Or.inl rfl) (Or.inr rfl) hne hall hfit,
      get_long_hex_fit (Or.inr rfl) (Or.inl rfl) hne hall hfit,
      get_long_hex_fit (Or.inr rfl) (Or.inr rfl) hne hall hfit⟩
  · intro s h0 hlen hp hall hfit
    obtain ⟨hb, hall8⟩ := get_long_octal_branch h0 hlen hp hall
    have hne : s ≠ [] := by
      rintro rfl
      simp at hlen
    rw [hb, ← digitsVal_eq_numeral]
    rw [← digitsVal_eq_numeral] at hfit
    exact xstrtol_strtolOfNat (strtol_digits hne hall8 (by decide)) hfit

/-- C6, witness: the hexadecimal part at `h = 1F` and the octal part at `017`. -/
theorem get_long_base_selection_witness :
    (get_long "0x1F".toList = .ok (numeral 16 "1F".toList : Int) ∧
      get_long "0X1F".toList = .ok (numeral 16 "1F".toList : Int) ∧
      get_long "\\x1F".toList = .ok (numeral 16 "1F".toList : Int) ∧
      get_long "\\X1F".toList = .ok (numeral 16 "1F".toList : Int)) ∧
    get_long "017".toList = .ok (numeral 8 "017".toList : Int) :=
  ⟨get_long_base_selection.1 "1F".toList (by decide) (by decide)
      (by rw [← digitsVal_eq_numeral]; decide),
    get_long_base_selection.2.1 "017".toList rfl (by decide) (by decide) (by decide)
      (by rw [← digitsVal_eq_numeral]; decide)⟩

/-- C7, counterexample: `017` is a non-empty string of decimal digits whose base-10 value 17
fits a signed long and which the base-10 `strtol` reads as 17, but `get_long` returns 15. -/
theorem get_long_leading_zero_is_octal :
    ("017".toList ≠ [] ∧ "017".toList.all (isDigitOf 10) = true ∧
      (digitsVal 10 "017".toList : Int) ≤ LONG_MAX) ∧
    digitsVal 10 "017".toList = 17 ∧ (strtol "017".toList 10).val = 17 ∧
    get_long "017".toList = .ok 15 := by
  decide

/-- C7 (amended): for every non-empty string `s` of the digits 0-9 that does not start with
`0` (or is the string `0` itself) and whose base-10 value fits a signed long, `get_long s`
succeeds and returns the base-10 value of `s`, the integer that the base-10 `strtol`
returns for `s`. -/
theorem get_long_decimal (s : List Char) (hne : s ≠ [])
    (hall : ∀ c ∈ s, isDigitOf 10 c = true) (hlead : s.head? ≠ some '0' ∨ s = ['0'])
    (hfit : (numeral 10 s : Int) ≤ LONG_MAX) :
    get_long s = .ok (numeral 10 s : Int) ∧ (strtol s 10).val = (numeral 10 s : Int) := by
  rw [← digitsVal_eq_numeral] at hfit ⊢
  have hs := strtol_digits hne hall (by decide : 10 ≤ 16)
  refine ⟨?_, ?_⟩
  · rw [get_long_decimal_branch hne hall hlead]
    exact xstrtol_strtolOfNat hs hfit
  · rw [hs]
    unfold strtolOfNat
    have : ¬ ((digitsVal 10 s : Int) > LONG_MAX) := by omega
    simp [this]

/-- C7, witness: the string `4096`. -/
theorem get_long_decimal_witness :
    get_long "4096".toList = .ok (numeral 10 "4096".toList : Int) ∧
    (strtol "4096".toList 10).val = (numeral 10 "4096".toList : Int) :=
  get_long_decimal "4096".toList (by decide) (by decide) (by decide)
    (by rw [← digitsVal_eq_numeral]; decide)

/-! ## Numeric literals: strict validation (C8) -/

theorem dropWhile_ne_nil_of_exists {α : Type} {p : α → Bool} {l : List α}
    (h : ∃ c ∈ l, p c = false) : l.dropWhile p ≠ [] := by
  induction l with
  | nil => simp at h
  | cons a t ih =>
    obtain ⟨c, hc, hpc⟩ := h
    rw [List.dropWhile_cons]
    split_ifs with ha
    · rcases List.mem_cons.1 hc with rfl | hc
      · rw [hpc] at ha
        exact absurd ha (by simp)
      · exact ih ⟨c, hc, hpc⟩
    · simp

theorem strtolHexMark_marked {b : Nat} {s s3 : List Char}
    (h : strtolHexMark b s = (true, s3)) : s.tail ≠ [] := by
  unfold strtolHexMark at h
  split_ifs at h
  · split at h
    · simp
    · simp at h
  · simp at h

theorem xstrtol_of_bad_body {b : Nat} {str : List Char}
    (h : ∃ c ∈ (strtolHexMark b (strtolSign (str.dropWhile isspace)).2).2,
      isDigitOf b c = false) :
    xstrtol str b = .error .notANumber ∨ xstrtol str b = .error .strtolErrno := by
  have hstr : str ≠ [] := by
    rintro rfl
    obtain ⟨c, hc, _⟩ := h
    simp [strtolSign, strtolHexMark] at hc
  unfold xstrtol strtol
  simp only []
  cases hm : strtolHexMark b (strtolSign (str.dropWhile isspace)).2 with
  | mk marked s3 =>
    rw [hm] at h
    simp only [] at h
    have hrest := dropWhile_ne_nil_of_exists h
    by_cases hd : s3.takeWhile (isDigitOf b) = []
    · cases marked with
      | true => simp [hd, strtolHexMark_marked hm]
      | false => simp [hd, hstr]
    · by_cases hneg : (strtolSign (str.dropWhile isspace)).1 = true
      · by_cases hbig :
          ((digitsVal b (s3.takeWhile (isDigitOf b)) : Nat) : Int) > -LONG_MIN
        · simp [hd, hneg, hbig]
        · simp [hd, hneg, hbig, hrest]
      · by_cases hbig :
          ((digitsVal b (s3.takeWhile (isDigitOf b)) : Nat) : Int) > LONG_MAX
        · simp [hd, hneg, hbig]
        · simp [hd, hneg, hbig, hrest]

theorem xstrtol_bad_body_exact {b : Nat} {str s2 s3 : List Char} {neg : Bool}
    (hs : strtolSign (str.dropWhile isspace) = (neg, s2))
    (hm : (strtolHexMark b s2).2 = s3) (h : ∃ c ∈ s3, isDigitOf b c = false) :
    xstrtol str b =
      if exceedsLong neg (digitsVal b (s3.takeWhile (isDigitOf b))) = true then
        .error .strtolErrno
      else .error .notANumber := by
  have hstr : str ≠ [] := by
    rintro rfl
    obtain ⟨c, hc, _⟩ := h
    simp only [List.dropWhile_nil, strtolSign, Prod.mk.injEq] at hs
    rw [← hm, ← hs.2] at hc
    simp [strtolHexMark] at hc
  unfold xstrtol strtol
  simp only []
  rw [hs]
  simp only []
  cases hmk : strtolHexMark b s2 with
  | mk marked s4 =>
    rw [hmk] at hm
    simp only [] at hm
    subst hm
    have hrest := dropWhile_ne_nil_of_exists h
    by_cases hd : s4.takeWhile (isDigitOf b) = []
    · have h0 : exceedsLong neg (digitsVal b []) = false := by
        cases neg
        · simp [exceedsLong, digitsVal, LONG_MAX]
        · simp [exceedsLong, digitsVal, LONG_MIN, LONG_MAX]
      rw [hd, h0]
      cases marked with
      | true => simp [strtolHexMark_marked hmk]
      | false => simp [hstr]
    · cases neg with
      | true =>
        by_cases hbig :
          ((digitsVal b (s4.takeWhile (isDigitOf b)) : Nat) : Int) > -LONG_MIN
        · simp [hd, hbig, exceedsLong]
        · simp [hd, hbig, hrest, exceedsLong]
      | false =>
        by_cases hbig :
          ((digitsVal b (s4.takeWhile (isDigitOf b)) : Nat) : Int) > LONG_MAX
        · simp [hd, hbig, exceedsLong]
        · simp [hd, hbig, hrest, exceedsLong]

theorem hex_prefix_shape {s : List Char} (h : hex_prefix s = true) :
    ∃ c0 x c2 t, s = c0 :: x :: c2 :: t ∧ (x = 'x' ∨ x = 'X') := by
  match s, h with
  | [], h => simp [ hex_prefix, cAt] at h
  | [_], h => simp [ hex_prefix, cAt] at h
  | [_, _], h => simp [ hex_prefix, cAt] at h
  | c0 :: x :: c2 :: t, h =>
    refine ⟨c0, x, c2, t, rfl, ?_⟩
    simp only [ hex_prefix, cAt_zero, cAt_succ, Bool.and_eq_true, Bool.or_eq_true,
      beq_iff_eq] at h
    exact h.1.2

theorem get_long_error_kind (s : List Char) (e : Err) (h : get_long s = .error e) :
    e = .notANumber ∨ e = .strtolErrno := by
  have hx : ∀ str b, xstrtol str b = .error e → e = .notANumber ∨ e = .strtolErrno := by
    intro str b hxe
    unfold xstrtol at hxe
    simp only [] at hxe
    split_ifs at hxe
    · right
      exact (Except.error.inj hxe).symm
    · left
      exact (Except.error.inj hxe).symm
  unfold get_long at h
  split_ifs at h
  · exact hx _ _ h
  · exact hx _ _ h
  · exact hx _ _ h

/-- C8, counterexample: in ` 12` (a space, then `12`) the part after the optional sign of this
decimal literal contains a space, which is no decimal digit, but `get_long` succeeds and
returns 12. -/
theorem get_long_accepts_leading_space :
    litBase " 12".toList = 10 ∧
    litBodyClaimed " 12".toList = " 12".toList ∧
    (litBodyClaimed " 12".toList).all (isDigitOf (litBase " 12".toList)) = false ∧
    get_long " 12".toList = .ok 12 := by
  decide

theorem get_long_bad_body (s : List Char)
    (h : ∃ c ∈ litBody s, isDigitOf (litBase s) c = false) :
    get_long s =
      if exceedsLong (litNegative s) (numeral (litBase s) (litRun s)) = true then
        .error .strtolErrno
      else .error .notANumber := by
  rw [← digitsVal_eq_numeral]
  unfold litRun
  unfold litBody litBase at h
  unfold litBody litBase litNegative get_long
  by_cases hp : hex_prefix s = true
  · obtain ⟨c0, x, c2, t, rfl, hx⟩ := hex_prefix_shape hp
    simp only [hp, if_true, List.tail_cons] at h ⊢
    apply xstrtol_bad_body_exact _ _ h
    · exact '0' :: x :: c2 :: t
    · rw [dropWhile_isspace_cons _ (by decide), strtolSign_cons _ (by decide)]
    · simp [strtolHexMark, hx]
  · by_cases ho : (cAt s 0 == '0' && cAt s 1 != Char.ofNat 0) = true
    · simp only [hp, ho, if_true, if_false, Bool.false_eq_true] at h ⊢
      match s, ho with
      | [], ho => simp [cAt] at ho
      | c :: t, ho =>
        simp only [cAt_zero, Bool.and_eq_true, beq_iff_eq] at ho
        rw [ho.1] at h ⊢
        apply xstrtol_bad_body_exact _ _ h
        · exact '0' :: t
        · rw [dropWhile_isspace_cons _ (by decide), strtolSign_cons _ (by decide)]
        · rw [strtolHexMark_ne16 _ (by decide)]
    · simp only [hp, ho, if_false, Bool.false_eq_true] at h ⊢
      have hm : (strtolHexMark 10 (strtolSign (s.dropWhile isspace)).2).2 =
          (strtolSign (s.dropWhile isspace)).2 := by
        rw [strtolHexMark_ne16 _ (by decide)]
      exact xstrtol_bad_body_exact rfl hm h

/-- C8 (amended): for every string `s`, if the part of `s` that follows its prefix (the text
after `0x`/`0X`/`\x`/`\X` for a hex literal, the whole string for an octal literal, and for a
decimal literal the string apart from leading white space and an optional sign after it)
contains any character that is not a digit of the base selected for `s`, then `get_long s`
fails and yields no value: with the range diagnostic of `strtol` exactly when the digits
before the first such character already exceed a long (the check of `errno` comes first), and
with the diagnostic "cannot be interpreted as number" otherwise. `12abc`, `12 `, `0x1Fg` and
`089` are rejected as not a number; twenty nines followed by `x` are rejected as out of
range. -/
theorem get_long_strict (s : List Char)
    (h : ∃ c ∈ litBody s, isDigitOf (litBase s) c = false) :
    (get_long s = .error .notANumber ∨ get_long s = .error .strtolErrno) ∧
    (get_long s =
      if exceedsLong (litNegative s) (numeral (litBase s) (litRun s)) = true then
        .error .strtolErrno
      else .error .notANumber) ∧
    get_long "12abc".toList = .error .notANumber ∧
    get_long "12 ".toList = .error .notANumber ∧
    get_long "0x1Fg".toList = .error .notANumber ∧
    get_long "089".toList = .error .notANumber ∧
    get_long "99999999999999999999x".toList = .error .strtolErrno ∧
    get_long "-9223372036854775808x".toList = .error .notANumber ∧
    get_long "-9223372036854775809x".toList = .error .strtolErrno := by
  have hex := get_long_bad_body s h
  refine ⟨?_, hex, by decide, by decide, by decide, by decide, by decide, by decide,
    by decide⟩
  rw [hex]
  split_ifs
  · exact Or.inr rfl
  · exact Or.inl rfl

/-- C8, witness: the string `7z` (not a number) and twenty nines followed by `z` (out of
range). -/
theorem get_long_strict_witness :
    get_long "7z".toList = .error .notANumber ∧
    get_long "99999999999999999999z".toList = .error .strtolErrno :=
  ⟨by
      have h := (get_long_strict "7z".toList ⟨'z', by decide, by decide⟩).2.1
      rw [h, ← digitsVal_eq_numeral]
      decide,
    by
      have h := (get_long_strict "99999999999999999999z".toList
        ⟨'z', by decide, by decide⟩).2.1
      rw [h, ← digitsVal_eq_numeral]
      decide⟩

/-! ## Hex-string decoding (C2) -/

theorem isxdigit_ne_nul {c : Char} (h : isxdigit c = true) : c ≠ Char.ofNat 0 :=
  isDigitOf_ne_nul (isxdigit_isDigitOf h)

theorem strtouchar_strtolOfNat {str : List Char} {b n : Nat}
    (h : strtol str b = strtolOfNat n) (hn : n ≤ 255) : strtouchar str b = .ok n := by
  have hx : xstrtol str b = .ok (n : Int) :=
    xstrtol_strtolOfNat h (by unfold LONG_MAX; omega)
  unfold strtouchar
  rw [hx]
  have h1 : ¬ ((n : Int) < 0 ∨ (n : Int) > 255) := by omega
  simp only [h1, if_false]
  congr 1
  omega

theorem strtouchar_hex2 {d p : Char} (hd : isxdigit d = true) (hp : isxdigit p = true) :
    strtouchar (cString ['0', 'x', d, p, Char.ofNat 0]) 16 = .ok (16 * hexVal d + hexVal p) := by
  have hc : cString ['0', 'x', d, p, Char.ofNat 0] = ['0', 'x', d, p] := by
    simp [cString, List.takeWhile_cons, isxdigit_ne_nul hd, isxdigit_ne_nul hp]
  have hall : ∀ c ∈ [d, p], isDigitOf 16 c = true := by
    intro c hc
    simp only [List.mem_cons, List.mem_singleton, List.not_mem_nil, or_false] at hc
    rcases hc with rfl | rfl
    · exact isxdigit_isDigitOf hd
    · exact isxdigit_isDigitOf hp
  have hv : digitsVal 16 [d, p] = 16 * hexVal d + hexVal p := by
    simp [digitsVal, hexVal]
    ring
  have hdl := isDigitOf_hexVal_lt (isxdigit_isDigitOf hd)
  have hpl := isDigitOf_hexVal_lt (isxdigit_isDigitOf hp)
  rw [hc, ← hv]
  exact strtouchar_strtolOfNat (strtol_hex_marked (Or.inl rfl) (by simp) hall) (by omega)

theorem strtouchar_hex1 {d : Char} (hd : isxdigit d = true) :
    strtouchar (cString ['0', 'x', d, Char.ofNat 0, Char.ofNat 0]) 16 = .ok (hexVal d) := by
  have hc : cString ['0', 'x', d, Char.ofNat 0, Char.ofNat 0] = ['0', 'x', d] := by
    simp [cString, List.takeWhile_cons, isxdigit_ne_nul hd]
  have hall : ∀ c ∈ [d], isDigitOf 16 c = true := by
    intro c hc
    simp only [List.mem_singleton] at hc
    rw [hc]
    exact isxdigit_isDigitOf hd
  have hv : digitsVal 16 [d] = hexVal d := by
    simp [digitsVal, hexVal]
  have hdl := isDigitOf_hexVal_lt (isxdigit_isDigitOf hd)
  rw [hc, ← hv]
  exact strtouchar_strtolOfNat (strtol_hex_marked (Or.inl rfl) (by simp) hall) (by omega)

theorem hex_to_uchar_eq_hexRun (s : List Char) :
    hex_to_uchar s = hexRun s { buf2 := Char.ofNat 0, data := [], num_bytes := 0 } := by
  unfold hex_to_uchar hexRun hexFinish
  rfl

theorem hexDigitsOf_cons_space {p : Char} (ps : List Char) (h : isspace p = true) :
    hexDigitsOf (p :: ps) = hexDigitsOf ps := by
  simp [hexDigitsOf, List.filter_cons, h]

theorem hexDigitsOf_cons_digit {p : Char} (ps : List Char) (h : isspace p = false) :
    hexDigitsOf (p :: ps) = hexVal p :: hexDigitsOf ps := by
  simp [hexDigitsOf, List.filter_cons, h]

theorem hexRun_spec (ps : List Char) (h : ∀ c ∈ ps, isxdigit c = true ∨ isspace c = true) :
    (∀ data n, hexRun ps { buf2 := Char.ofNat 0, data := data, num_bytes := n }
        = .ok (data ++ pairBytes (hexDigitsOf ps), n + (pairBytes (hexDigitsOf ps)).length)) ∧
    (∀ d data n, isxdigit d = true →
      hexRun ps { buf2 := d, data := data, num_bytes := n }
        = .ok (data ++ pairBytes (hexVal d :: hexDigitsOf ps),
            n + (pairBytes (hexVal d :: hexDigitsOf ps)).length)) := by
  induction ps with
  | nil =>
    constructor
    · intro data n
      simp [hexRun, hex_loop, hexFinish, hexDigitsOf, pairBytes]
    · intro d data n hd
      simp [hexRun, hex_loop, hexFinish, hexDigitsOf, pairBytes, isxdigit_ne_nul hd,
        strtouchar_hex1 hd]
  | cons p ps ih =>
    obtain ⟨ihA, ihB⟩ := ih (fun c hc => h c (by simp [hc]))
    by_cases hsp : isspace p = true
    · constructor
      · intro data n
        have := ihA data n
        rw [hexDigitsOf_cons_space ps hsp]
        simpa [hexRun, hex_loop, hsp] using this
      · intro d data n hd
        have := ihB d data n hd
        rw [hexDigitsOf_cons_space ps hsp]
        simpa [hexRun, hex_loop, hsp] using this
    · have hsp : isspace p = false := by simpa using hsp
      have hx : isxdigit p = true := by
        rcases h p (by simp) with hx | hs
        · exact hx
        · rw [hsp] at hs
          exact absurd hs (by simp)
      constructor
      · intro data n
        have := ihB p data n hx
        rw [hexDigitsOf_cons_digit ps hsp]
        simpa [hexRun, hex_loop, hsp, hx] using this
      · intro d data n hd
        have step : hexRun (p :: ps) { buf2 := d, data := data, num_bytes := n }
            = hexRun ps ⟨Char.ofNat 0, data ++ [16 * hexVal d + hexVal p], n + 1⟩ := by
          simp [hexRun, hex_loop, hsp, hx, isxdigit_ne_nul hd, strtouchar_hex2 hd hx]
        rw [step, ihA, hexDigitsOf_cons_digit ps hsp]
        simp [pairBytes]
        omega

/-- C2: for every string `s` that consists only of hexadecimal digits (either case) and
white-space characters, `hex_to_uchar s` returns the byte sequence obtained by deleting all
white space, then pairing the remaining digits left to right with the first digit of each
pair as the high nibble, a last unpaired digit forming one final byte of that digit's value;
the byte count reported is the length of that sequence; the result for `s` equals the result
for `s` with its white space removed; `deadbeef` and `de ad be ef` both give
`[0xDE,0xAD,0xBE,0xEF]` and `a` gives `[0x0A]`. -/
theorem hex_to_uchar_decodes (s : List Char)
    (h : ∀ c ∈ s, isxdigit c = true ∨ isspace c = true) :
    hex_to_uchar s = .ok (decodeRef s, (decodeRef s).length) ∧
    hex_to_uchar s = hex_to_uchar (s.filter (fun c => !isspace c)) ∧
    hex_to_uchar "deadbeef".toList = .ok ([0xDE, 0xAD, 0xBE, 0xEF], 4) ∧
    hex_to_uchar "de ad be ef".toList = .ok ([0xDE, 0xAD, 0xBE, 0xEF], 4) ∧
    hex_to_uchar "a".toList = .ok ([0x0A], 1) := by
  have main : ∀ t : List Char, (∀ c ∈ t, isxdigit c = true ∨ isspace c = true) →
      hex_to_uchar t = .ok (decodeRef t, (decodeRef t).length) := by
    intro t ht
    rw [hex_to_uchar_eq_hexRun, (hexRun_spec t ht).1 [] 0]
    simp [decodeRef, hexDigitsOf]
  refine ⟨main s h, ?_, by decide, by decide, by decide⟩
  have hf : ∀ c ∈ s.filter (fun c => !isspace c), isxdigit c = true ∨ isspace c = true :=
    fun c hc => h c (List.mem_filter.1 hc).1
  rw [main s h, main _ hf]
  simp [decodeRef, List.filter_filter]

/-- C2, witness: the string `de ad b`, with white space and an unpaired last digit. -/
theorem hex_to_uchar_decodes_witness :
    hex_to_uchar "de ad b".toList
      = .ok (decodeRef "de ad b".toList, (decodeRef "de ad b".toList).length) ∧
    hex_to_uchar "de ad b".toList
      = hex_to_uchar ("de ad b".toList.filter (fun c => !isspace c)) ∧
    hex_to_uchar "deadbeef".toList = .ok ([0xDE, 0xAD, 0xBE, 0xEF], 4) ∧
    hex_to_uchar "de ad be ef".toList = .ok ([0xDE, 0xAD, 0xBE, 0xEF], 4) ∧
    hex_to_uchar "a".toList = .ok ([0x0A], 1) :=
  hex_to_uchar_decodes "de ad b".toList (by decide)

/-! ## Byte literals (C9, C10) -/

theorem all_isDigitOf_iff {b : Nat} {ds : List Char} :
    ds.all (isDigitOf b) = true ↔ ∀ c ∈ ds, isDigitOf b c = true := by
  simp [List.all_eq_true]

theorem not_all_isDigitOf {b : Nat} {ds : List Char} (h : ¬ ds.all (isDigitOf b) = true) :
    ∃ c ∈ ds, isDigitOf b c = false := by
  rw [all_isDigitOf_iff] at h
  push_neg at h
  obtain ⟨c, hc, hn⟩ := h
  exact ⟨c, hc, by simpa using hn⟩

theorem strtouchar_of_xstrtol_error {str : List Char} {b : Nat}
    (h : xstrtol str b = .error .notANumber ∨ xstrtol str b = .error .strtolErrno) :
    (strtouchar str b).toOption = none := by
  unfold strtouchar
  rcases h with h | h <;> rw [h] <;> rfl

theorem strtol_no_digits {b : Nat} {str : List Char} (marked : Bool)
    (h1 : strtolHexMark b (strtolSign (str.dropWhile isspace)).2 = (marked, []))
    (hstr : str ≠ []) : xstrtol str b = .error .notANumber := by
  unfold xstrtol strtol
  simp only []
  rw [h1]
  cases marked with
  | true => simp [strtolHexMark_marked h1]
  | false => simp [hstr]

theorem strtouchar_unsigned {b : Nat} {str ds : List Char} (marked : Bool)
    (h1 : strtolHexMark b (strtolSign (str.dropWhile isspace)).2 = (marked, ds))
    (hneg : (strtolSign (str.dropWhile isspace)).1 = false) (hstr : str ≠ []) :
    (strtouchar str b).toOption = byteOfDigits b ds := by
  by_cases hne : ds = []
  · subst hne
    rw [strtouchar_of_xstrtol_error (Or.inl (strtol_no_digits marked h1 hstr))]
    simp [byteOfDigits]
  by_cases hall : ds.all (isDigitOf b) = true
  · have hs := strtol_of_body marked h1 hneg hne (all_isDigitOf_iff.1 hall)
    by_cases h255 : digitsVal b ds ≤ 255
    · rw [strtouchar_strtolOfNat hs h255]
      simp [byteOfDigits, hne, hall, ← digitsVal_eq_numeral, h255, Except.toOption]
    · have hr : byteOfDigits b ds = none := by
        simp [byteOfDigits, ← digitsVal_eq_numeral, h255]
      rw [hr]
      by_cases hbig : (digitsVal b ds : Int) > LONG_MAX
      · exact strtouchar_of_xstrtol_error (Or.inr (xstrtol_strtolOfNat_big hs hbig))
      · unfold strtouchar
        rw [xstrtol_strtolOfNat hs (by omega)]
        have h255b : 255 < digitsVal b ds := by omega
        simp [h255b, Except.toOption]
  · have hr : byteOfDigits b ds = none := by
      simp [byteOfDigits, hall]
    rw [hr]
    apply strtouchar_of_xstrtol_error
    apply xstrtol_of_bad_body
    rw [h1]
    exact not_all_isDigitOf hall

theorem strtouchar_negative {str ds : List Char}
    (h1 : (strtolSign (str.dropWhile isspace)).2 = ds)
    (hneg : (strtolSign (str.dropWhile isspace)).1 = true) (hstr : str ≠ []) :
    (strtouchar str 10).toOption
      = if ds ≠ [] ∧ ds.all (isDigitOf 10) = true ∧ numeral 10 ds = 0 then some 0 else none := by
  have hm : strtolHexMark 10 (strtolSign (str.dropWhile isspace)).2 = (false, ds) := by
    rw [strtolHexMark_ne16 _ (by decide), h1]
  by_cases hne : ds = []
  · subst hne
    rw [strtouchar_of_xstrtol_error (Or.inl (strtol_no_digits false hm hstr))]
    simp
  by_cases hall : ds.all (isDigitOf 10) = true
  · have hall1 := all_isDigitOf_iff.1 hall
    have hs : strtol str 10 =
        if ((digitsVal 10 ds : Nat) : Int) > -LONG_MIN then
          { val := LONG_MIN, rest := [], erange := true }
        else { val := -((digitsVal 10 ds : Nat) : Int), rest := [], erange := false } := by
      unfold strtol
      simp only []
      rw [hm]
      simp only [hneg, takeWhile_all hall1, dropWhile_all hall1, hne, if_false, if_true]
    rw [← digitsVal_eq_numeral]
    unfold strtouchar xstrtol
    rw [hs]
    by_cases hbig : ((digitsVal 10 ds : Nat) : Int) > -LONG_MIN
    · have h0 : digitsVal 10 ds ≠ 0 := by
        intro h0
        rw [h0] at hbig
        exact absurd hbig (by decide)
      rw [if_pos hbig]
      simp [h0, Except.toOption]
    · rw [if_neg hbig]
      by_cases h0 : digitsVal 10 ds = 0
      · simp [h0, hne, hall, Except.toOption]
      · have hlt : 0 < digitsVal 10 ds := by omega
        simp [h0, hlt, Except.toOption]
  · have hr : ¬ (ds ≠ [] ∧ ds.all (isDigitOf 10) = true ∧ numeral 10 ds = 0) := by
      simp [hall]
    rw [if_neg hr]
    apply strtouchar_of_xstrtol_error
    apply xstrtol_of_bad_body
    rw [hm]
    exact not_all_isDigitOf hall

theorem strtouchar_decimal {r : List Char} (hr : r ≠ []) :
    (strtouchar r 10).toOption = byteOfSigned r := by
  unfold byteOfSigned
  simp only []
  by_cases hneg : (strtolSign (r.dropWhile isspace)).1 = true
  · rw [strtouchar_negative rfl hneg hr]
    simp [hneg]
  · have hneg : (strtolSign (r.dropWhile isspace)).1 = false := by simpa using hneg
    rw [strtouchar_unsigned false (strtolHexMark_ne16 _ (by decide)) hneg hr]
    simp [hneg]

theorem strtouchar_hex_marked {x : Char} {r : List Char} (hx : x = 'x' ∨ x = 'X') :
    (strtouchar ('0' :: x :: r) 16).toOption = byteOfDigits 16 r := by
  apply strtouchar_unsigned true _ _ (by simp)
  · rw [dropWhile_isspace_cons _ (by decide), strtolSign_cons _ (by decide)]
    simp [strtolHexMark, hx]
  · rw [dropWhile_isspace_cons _ (by decide), strtolSign_cons _ (by decide)]

theorem byteOfDigits_nul (b : Nat) (t : List Char) :
    byteOfDigits b (Char.ofNat 0 :: t) = none := by
  have : isDigitOf b (Char.ofNat 0) = false := by
    unfold isDigitOf digitVal
    simp
  simp [byteOfDigits, this]

theorem strtouchar_cons_letter {x : Char} (t : List Char) (hx : x = 'x' ∨ x = 'X') :
    (strtouchar (x :: t) 10).toOption = none := by
  apply strtouchar_of_xstrtol_error
  apply xstrtol_of_bad_body
  refine ⟨x, ?_, ?_⟩
  · rcases hx with rfl | rfl
    · rw [dropWhile_isspace_cons _ (by decide), strtolSign_cons _ (by decide)]
      simp [strtolHexMark]
    · rw [dropWhile_isspace_cons _ (by decide), strtolSign_cons _ (by decide)]
      simp [strtolHexMark]
  · rcases hx with rfl | rfl <;> decide

theorem get_uchar_eq_ref (s : List Char) : (get_uchar s).toOption = get_uchar_ref s := by
  match s with
  | [] => rfl
  | [c] => rfl
  | [c0, c1] =>
    have hp : hex_prefix [c0, c1] = false := by
      simp [ hex_prefix, cAt]
    by_cases hb : c0 = '\\'
    · subst hb
      by_cases hn : c1 = Char.ofNat 0
      · subst hn
        rfl
      · cases he : escapeCode c1 with
        | some v =>
          have h1 : get_uchar ['\\', c1] = .ok v := by
            unfold escapeCode at he
            unfold get_uchar
            simp only [hp, cAt_zero, cAt_succ, List.length_cons, List.length_nil]
            split at he <;> simp_all
          rw [h1]
          simp [get_uchar_ref, hasHexMark, cAt_zero, he, Except.toOption]
        | none =>
          have h1 : get_uchar ['\\', c1] = strtouchar [c1] 10 := by
            unfold escapeCode at he
            unfold get_uchar
            simp only [hp, cAt_zero, cAt_succ, List.length_cons, List.length_nil]
            split at he <;> simp_all
          rw [h1, strtouchar_decimal (by simp)]
          simp [get_uchar_ref, hasHexMark, cAt_zero, he]
    · have h1 : get_uchar [c0, c1] = .error .invalidArgument := by
        unfold get_uchar
        simp [hp, cAt_zero, hb]
      rw [h1]
      unfold get_uchar_ref
      simp only [hasHexMark, Bool.false_eq_true, if_false]
      split
      · rename_i heq
        simp only [List.cons.injEq] at heq
        exact absurd heq.1 hb
      · rfl
  | c0 :: c1 :: c2 :: t =>
    by_cases hm : hasHexMark (c0 :: c1 :: c2 :: t) = true
    · have hm1 := hm
      simp only [hasHexMark, Bool.and_eq_true, Bool.or_eq_true, beq_iff_eq] at hm1
      obtain ⟨hc0, hx⟩ := hm1
      have href : get_uchar_ref (c0 :: c1 :: c2 :: t) = byteOfDigits 16 (c2 :: t) := by
        simp [get_uchar_ref, hm]
      rw [href]
      by_cases hn : c2 = Char.ofNat 0
      · subst hn
        rw [byteOfDigits_nul]
        have hp : hex_prefix (c0 :: c1 :: Char.ofNat 0 :: t) = false := by
          simp [ hex_prefix, cAt_zero, cAt_succ]
        rcases hc0 with rfl | rfl
        · have h1 : get_uchar ('0' :: c1 :: Char.ofNat 0 :: t) = .error .invalidArgument := by
            unfold get_uchar
            simp [hp, cAt_zero]
          rw [h1]
          rfl
        · have hc1 : c1 ≠ Char.ofNat 0 := by
            rcases hx with rfl | rfl <;> decide
          have hesc : escapeCode c1 = none := by
            rcases hx with rfl | rfl <;> rfl
          have h1 : get_uchar ('\\' :: c1 :: Char.ofNat 0 :: t)
              = strtouchar (c1 :: Char.ofNat 0 :: t) 10 := by
            unfold get_uchar
            simp [hp, cAt_zero, cAt_succ, hc1]
          rw [h1]
          exact strtouchar_cons_letter _ hx
      · have hp : hex_prefix (c0 :: c1 :: c2 :: t) = true := by
          unfold hex_prefix
          simp only [cAt_zero, cAt_succ]
          rcases hc0 with rfl | rfl <;> rcases hx with rfl | rfl <;> simp [hn]
        have h1 : get_uchar (c0 :: c1 :: c2 :: t) = strtouchar ('0' :: c1 :: c2 :: t) 16 := by
          unfold get_uchar
          simp [hp]
        rw [h1]
        exact strtouchar_hex_marked hx
    · have hm : hasHexMark (c0 :: c1 :: c2 :: t) = false := by simpa using hm
      have hp : hex_prefix (c0 :: c1 :: c2 :: t) = false := by
        have hm1 := hm
        simp only [hasHexMark] at hm1
        unfold hex_prefix
        simp only [cAt_zero, cAt_succ]
        rw [hm1]
        rfl
      by_cases hb : c0 = '\\'
      · subst hb
        have href : get_uchar_ref ('\\' :: c1 :: c2 :: t) = byteOfSigned (c1 :: c2 :: t) := by
          simp [get_uchar_ref, hm]
        rw [href, ← strtouchar_decimal (by simp)]
        by_cases hn : c1 = Char.ofNat 0
        · subst hn
          rw [strtouchar_decimal (by simp)]
          have h1 : get_uchar ('\\' :: Char.ofNat 0 :: c2 :: t) = .error .invalidArgument := by
            unfold get_uchar
            simp [hp, cAt_zero, cAt_succ]
          rw [h1]
          have h2 : (Char.ofNat 0 :: c2 :: t).dropWhile isspace = Char.ofNat 0 :: c2 :: t :=
            dropWhile_isspace_cons _ (by decide)
          have h3 : strtolSign (Char.ofNat 0 :: c2 :: t) = (false, Char.ofNat 0 :: c2 :: t) := by
            unfold strtolSign
            split
            · rename_i heq
              simp only [List.cons.injEq] at heq
              exact absurd heq.1 (by decide)
            · rename_i heq
              simp only [List.cons.injEq] at heq
              exact absurd heq.1 (by decide)
            · rfl
          unfold byteOfSigned
          simp only [h2, h3, byteOfDigits_nul]
          rfl
        · have h1 : get_uchar ('\\' :: c1 :: c2 :: t) = strtouchar (c1 :: c2 :: t) 10 := by
            unfold get_uchar
            simp [hp, cAt_zero, cAt_succ, hn]
          rw [h1]
      · have h1 : get_uchar (c0 :: c1 :: c2 :: t) = .error .invalidArgument := by
          unfold get_uchar
          simp [hp, cAt_zero, hb]
        rw [h1]
        unfold get_uchar_ref
        simp only [hm, Bool.false_eq_true, if_false]
        split
        · rename_i heq
          simp only [List.cons.injEq] at heq
          exact absurd heq.1 hb
        · rfl

theorem hex_prefix_hasHexMark {s : List Char} (h : hex_prefix s = true) :
    hasHexMark s = true := by
  match s, h with
  | [], h => simp [ hex_prefix, cAt] at h
  | [_], h => simp [ hex_prefix, cAt] at h
  | [_, _], h => simp [ hex_prefix, cAt] at h
  | c0 :: x :: c2 :: t, h =>
    simp only [ hex_prefix, cAt_zero, cAt_succ, Bool.and_eq_true] at h
    simp only [hasHexMark, Bool.and_eq_true]
    exact h.1

theorem get_uchar_invalidArgument {s : List Char} (hlen : s.length ≠ 1)
    (hm : hasHexMark s = false) (hb : s.head? ≠ some '\\') :
    get_uchar s = .error .invalidArgument := by
  have hp : hex_prefix s = false := by
    by_contra hp
    rw [ hex_prefix_hasHexMark (by simpa using hp)] at hm
    exact absurd hm (by simp)
  have h0 : cAt s 0 ≠ '\\' := by
    match s, hb with
    | [], _ => decide
    | c :: t, hb => simpa [cAt_zero] using hb
  unfold get_uchar
  simp [hlen, hp, h0]

theorem strtouchar_le {str : List Char} {b v : Nat} (h : strtouchar str b = .ok v) :
    v ≤ 255 := by
  unfold strtouchar at h
  split at h
  · exact absurd h (by simp)
  · rename_i l _
    split_ifs at h with hl
    have hv := Except.ok.inj h
    omega

theorem get_uchar_le {s : List Char} {v : Nat} (h : get_uchar s = .ok v) : v ≤ 255 := by
  unfold get_uchar at h
  simp only [] at h
  split_ifs at h with h1 h2 h3 h4
  · have hv := Except.ok.inj h
    omega
  · exact strtouchar_le h
  · split at h
    · rename_i c hc
      have hv := Except.ok.inj h
      subst hv
      split at hc <;> first | (have hv := Option.some.inj hc; omega) | exact absurd hc (by simp)
    · exact strtouchar_le h
  · split at h
    · rename_i c hc
      exact absurd hc (by simp)
    · exact strtouchar_le h

theorem get_uchar_rejects_octal (d : List Char) (hne : d ≠ [])
    (hall : ∀ c ∈ d, isDigitOf 8 c = true) :
    get_uchar ('0' :: d) = .error .invalidArgument := by
  obtain ⟨c, t, rfl⟩ := List.exists_cons_of_ne_nil hne
  have hc : isDigitOf 8 c = true := hall c (by simp)
  apply get_uchar_invalidArgument
  · simp
  · have hx : c ≠ 'x' := by
      rintro rfl
      exact absurd hc (by decide)
    have hX : c ≠ 'X' := by
      rintro rfl
      exact absurd hc (by decide)
    match t with
    | [] => rfl
    | _ :: _ => simp [hasHexMark, hx, hX]
  · simp

/-- C9, counterexample: `\+65` and `\ 65` are not of length 1, carry no hex mark, are no
two-character escape and are not a backslash followed by decimal digits, so the rules as
stated make them fail; `get_uchar` returns 65 for both (and 0 for `\-0`). -/
theorem get_uchar_accepts_signed_decimal :
    get_uchar_claimed "\\+65".toList = none ∧ get_uchar "\\+65".toList = .ok 65 ∧
    get_uchar_claimed "\\ 65".toList = none ∧ get_uchar "\\ 65".toList = .ok 65 ∧
    get_uchar_claimed "\\-0".toList = none ∧ get_uchar "\\-0".toList = .ok 0 := by
  decide

/-- C9 (amended): for every string, the byte literal parser equals the reference definition
given by its precedence rules: a string of length exactly 1 yields its character code (`A`
gives 65, `0` gives 48); otherwise a string with a `0x`/`0X`/`\x`/`\X` mark and at least one
further character yields the base-16 value of the remainder (`0x41` gives 65); otherwise a
backslash followed by exactly one of `n t r a b f v e` yields 10, 9, 13, 7, 8, 12, 11, 27;
otherwise a backslash followed by optional white space, an optional sign and decimal digits
yields their base-10 value (`\65` gives 65); the hexadecimal and decimal branches fail when
the remainder is not such a number or its value lies outside [0,255]; every string that is
not of length 1, carries no hex mark and does not start with a backslash (the empty string
included) fails with the "invalid argument" diagnostic. Every value returned lies in
[0,255]. -/
theorem get_uchar_by_precedence (s : List Char) :
    (get_uchar s).toOption = get_uchar_ref s ∧
    (s.length ≠ 1 → hasHexMark s = false → s.head? ≠ some '\\' →
      get_uchar s = .error .invalidArgument) ∧
    (∀ v, get_uchar s = .ok v → v ≤ 255) ∧
    get_uchar "A".toList = .ok 65 ∧ get_uchar "0".toList = .ok 48 ∧
    get_uchar "\\".toList = .ok 92 ∧ get_uchar "0x41".toList = .ok 65 ∧
    get_uchar "\\n".toList = .ok 10 ∧ get_uchar "\\t".toList = .ok 9 ∧
    get_uchar "\\r".toList = .ok 13 ∧ get_uchar "\\a".toList = .ok 7 ∧
    get_uchar "\\b".toList = .ok 8 ∧ get_uchar "\\f".toList = .ok 12 ∧
    get_uchar "\\v".toList = .ok 11 ∧ get_uchar "\\e".toList = .ok 27 ∧
    get_uchar "\\65".toList = .ok 65 ∧ get_uchar [] = .error .invalidArgument := by
  refine ⟨get_uchar_eq_ref s, get_uchar_invalidArgument, fun v hv => get_uchar_le hv, ?_⟩
  decide

/-- C9, witness: the string `AB` has length 2, no hex mark and no leading backslash. -/
theorem get_uchar_by_precedence_witness :
    (get_uchar "AB".toList).toOption = get_uchar_ref "AB".toList ∧
    get_uchar "AB".toList = .error .invalidArgument ∧
    (∀ v, get_uchar "\\65".toList = .ok v → v ≤ 255) :=
  ⟨(get_uchar_by_precedence "AB".toList).1,
    (get_uchar_by_precedence "AB".toList).2.1 (by decide) (by decide) (by decide),
    (get_uchar_by_precedence "\\65".toList).2.2.1⟩

/-- C10, failing input: `0101` and `012` are `0` followed by octal digits of value 65 and 10,
which the help text of the program admits for `<char>`; `get_uchar` rejects both with the
"invalid argument" diagnostic. -/
theorem get_uchar_octal_rejected :
    (numeral 8 "101".toList = 65 ∧ get_uchar "0101".toList = .error .invalidArgument) ∧
    (numeral 8 "12".toList = 10 ∧ get_uchar "012".toList = .error .invalidArgument) := by
  refine ⟨⟨?_, by decide⟩, ⟨?_, by decide⟩⟩ <;> rw [← digitsVal_eq_numeral] <;> decide

/-! ## Lemmas: the hex dump and its groups -/

theorem hexDigitUpper_not_sep : ∀ d, d < 16 → isSep (hexDigitUpper d) = false := by
  decide

theorem fmt02X_eq (c : Nat) :
    ∃ h l, fmt02X c = [h, l] ∧ isSep h = false ∧ isSep l = false := by
  refine ⟨_, _, rfl, hexDigitUpper_not_sep _ ?_, hexDigitUpper_not_sep _ ?_⟩ <;> omega

theorem groupsFrom_group {h l : Char} (rest : List Char) (hh : isSep h = false)
    (hl : isSep l = false) (hrest : ∀ c ∈ rest.head?, isSep c = true) :
    groupsFrom [] (' ' :: h :: l :: rest) = [h, l] :: groupsFrom [] rest := by
  have h1 : groupsFrom [] (' ' :: h :: l :: rest) = groupsFrom [h, l] rest := by
    have hsp : isSep ' ' = true := rfl
    simp [groupsFrom, hh, hl, hsp]
  rw [h1]
  match rest, hrest with
  | [], _ => simp [groupsFrom]
  | s :: r, hrest =>
    have hs : isSep s = true := hrest s (by simp)
    simp [groupsFrom, hs]

theorem read_loop_head (len i : Int) (fp : List Nat) :
    ∀ c ∈ (read_loop len i fp).head?, isSep c = true := by
  intro c hc
  unfold read_loop at hc
  split at hc
  · split_ifs at hc
    · simp only [List.head?_cons, Option.mem_def, Option.some.injEq] at hc
      rw [← hc]
      rfl
    · simp at hc
  · split_ifs at hc
    · simp only [] at hc
      split_ifs at hc <;>
        (simp only [List.cons_append, List.head?_cons, Option.mem_def,
          Option.some.injEq] at hc
         rw [← hc]
         rfl)
    · simp at hc

theorem read_loop_cons (len i : Int) (c : Nat) (fp1 : List Nat) (hi : i < len) :
    ∃ sp nl : List Char, (sp = [] ∨ sp = [' ']) ∧ (nl = [] ∨ nl = ['\n']) ∧
      read_loop len i (c :: fp1)
        = ' ' :: fmt02X c ++ (sp ++ nl ++ read_loop len (i + 1) fp1) := by
  rw [read_loop]
  simp only [hi, if_true]
  split_ifs
  · exact ⟨[' '], ['\n'], Or.inr rfl, Or.inr rfl, by simp⟩
  · exact ⟨[' '], [], Or.inr rfl, Or.inl rfl, by simp⟩
  · exact ⟨[], ['\n'], Or.inl rfl, Or.inr rfl, by simp⟩
  · exact ⟨[], [], Or.inl rfl, Or.inl rfl, by simp⟩

theorem read_loop_done (len i : Int) (fp : List Nat) (hi : ¬ i < len) :
    read_loop len i fp = [] := by
  unfold read_loop
  split <;> simp [hi]

theorem hexGroups_read_loop (len : Int) (fp : List Nat) :
    ∀ i : Int, hexGroups (read_loop len i fp) = (fp.take (len - i).toNat).map fmt02X := by
  induction fp with
  | nil =>
    intro i
    unfold read_loop
    split_ifs <;> simp [hexGroups, groupsFrom, isSep]
  | cons c fp1 ih =>
    intro i
    by_cases hi : i < len
    · obtain ⟨sp, nl, hsp, hnl, heq⟩ := read_loop_cons len i c fp1 hi
      obtain ⟨h, l, hf, hh, hl⟩ := fmt02X_eq c
      have hk : (len - i).toNat = (len - (i + 1)).toNat + 1 := by omega
      have hR := read_loop_head len (i + 1) fp1
      have hskip : groupsFrom [] (sp ++ nl ++ read_loop len (i + 1) fp1)
          = groupsFrom [] (read_loop len (i + 1) fp1) := by
        rcases hsp with rfl | rfl <;> rcases hnl with rfl | rfl <;>
          simp [groupsFrom, isSep]
      have hhead : ∀ x ∈ (sp ++ nl ++ read_loop len (i + 1) fp1).head?, isSep x = true := by
        rcases hsp with rfl | rfl <;> rcases hnl with rfl | rfl <;>
          first
            | simpa using hR
            | (intro x hx
               simp only [List.cons_append, List.nil_append, List.head?_cons, Option.mem_def,
                 Option.some.injEq] at hx
               rw [← hx]
               rfl)
      rw [heq, hk, List.take_succ_cons, List.map_cons, ← ih (i + 1), hf]
      unfold hexGroups
      rw [← hskip]
      exact groupsFrom_group _ hh hl hhead
    · rw [read_loop_done len i _ hi]
      have hk : (len - i).toNat = 0 := by omega
      rw [hk]
      simp [hexGroups, groupsFrom]

/-! ## Lemmas: `read_data` -/

theorem strcasecmp_of_map_eq : ∀ a b : List Char,
    a.map tolower = b.map tolower → strcasecmp a b = 0
  | [], [], _ => rfl
  | [], _ :: _, h => by simp at h
  | _ :: _, [], h => by simp at h
  | x :: a, y :: b, h => by
    simp only [List.map_cons, List.cons.injEq] at h
    rw [strcasecmp, if_pos h.1]
    exact strcasecmp_of_map_eq a b h.2

theorem strcasecmp_of_isWord {w : String} {s : List Char} (h : isWord w s) :
    strcasecmp s w.toList = 0 :=
  strcasecmp_of_map_eq _ _ h

theorem strcasecmp_letter_a {s w : List Char} (h : strcasecmp s ('a' :: w) = 0) :
    ∃ c t, s = c :: t ∧ (c.toNat = 65 ∨ c.toNat = 97) := by
  match s, h with
  | [], h =>
    have h97 : tolower 'a' = 97 := by decide
    simp only [strcasecmp, h97] at h
    omega
  | c :: t, h =>
    refine ⟨c, t, rfl, ?_⟩
    have h97 : tolower 'a' = 97 := by decide
    have hc : tolower c = 97 := by
      simp only [strcasecmp, h97] at h
      split_ifs at h with heq
      · exact heq
      · omega
    unfold tolower at hc
    split_ifs at hc <;> omega

theorem get_long_of_letter {c : Char} (t : List Char) (hc : c.toNat = 65 ∨ c.toNat = 97) :
    get_long (c :: t) = .error .notANumber ∨ get_long (c :: t) = .error .strtolErrno := by
  have h0 : c ≠ '0' := by
    rintro rfl
    revert hc
    decide
  have hb : c ≠ '\\' := by
    rintro rfl
    revert hc
    decide
  have hsp : isspace c = false := by
    unfold isspace
    rcases hc with hc | hc <;> simp [hc]
  have hd : isDigitOf 10 c = false := by
    unfold isDigitOf digitVal
    rcases hc with hc | hc <;> simp [hc]
  have hbr : get_long (c :: t) = xstrtol (c :: t) 10 := by
    unfold get_long hex_prefix
    simp [cAt_zero, h0, hb]
  rw [hbr]
  apply xstrtol_of_bad_body
  rw [dropWhile_isspace_cons _ hsp, strtolSign_cons _ (by omega),
    strtolHexMark_ne16 _ (by decide)]
  exact ⟨c, by simp, hd⟩

theorem get_long_ok_not_sentinel {s w : List Char} {v : Int} (h : get_long s = .ok v) :
    strcasecmp s ('a' :: w) ≠ 0 := by
  intro h0
  obtain ⟨c, t, rfl, hc⟩ := strcasecmp_letter_a h0
  rcases get_long_of_letter t hc with he | he <;> rw [he] at h <;> exact absurd h (by simp)

theorem read_data_seek {F : List Nat} {off : List Char} {O : Int} (len : List Char)
    (hoff : get_long off = .ok O) (h0 : 0 ≤ O) (hlt : O < F.length) :
    read_data off len (some F) =
      if strcasecmp len "all".toList = 0 then
        .ok (read_loop ((F.length : Int) - O) 0 (F.drop O.toNat))
      else
        match get_long len with
        | .error e => .error e
        | .ok L =>
          .ok (read_loop (if L < 1 then (F.length : Int) - O else L) 0 (F.drop O.toNat)) := by
  have hna : strcasecmp off "append".toList ≠ 0 := get_long_ok_not_sentinel hoff
  have hge : ¬ (O ≥ (F.length : Int)) := by omega
  have hsk : fseek O ≠ -1 := by
    unfold fseek
    have : ¬ O < 0 := by omega
    simp [this]
  unfold read_data
  simp only [hna, hoff, hge, hsk, if_false]
  split_ifs with hall
  · rfl
  · cases get_long len with
    | error e => rfl
    | ok L =>
      simp only []
      split_ifs <;> rfl

theorem read_data_offset_ge {F : List Nat} {off : List Char} {v : Int} (len : List Char)
    (hv : get_long off = .ok v) (hge : v ≥ F.length) :
    read_data off len (some F) = .error .offsetExceedsSize := by
  have hna : strcasecmp off "append".toList ≠ 0 := get_long_ok_not_sentinel hv
  unfold read_data
  simp only [hna, hv, hge, if_true, if_false]

/-! ## Read length resolution (C4) and read offset validation (C5) -/

/-- C4: for every file `F` of size `N` and every offset argument that parses to `O` with
`0 <= O < N`: if the length argument is the word `all` in any letter case, or parses to a
value smaller than 1, `read_data` succeeds and prints exactly the `N - O` bytes at positions
`O..N-1` as hex groups; if it parses to a value `L >= 1`, `read_data` succeeds (also when the
request reaches past the end of the file) and prints exactly the `min(L, N - O)` bytes that
start at position `O`. -/
theorem read_data_length (F : List Nat) (off len : List Char) (O : Int)
    (hoff : get_long off = .ok O) (h0 : 0 ≤ O) (hlt : O < F.length) :
    (isWord "all" len →
      ∃ out, read_data off len (some F) = .ok out ∧
        hexGroups out = (F.drop O.toNat).map fmt02X ∧
        (hexGroups out).length = F.length - O.toNat) ∧
    (∀ L : Int, get_long len = .ok L → L < 1 →
      ∃ out, read_data off len (some F) = .ok out ∧
        hexGroups out = (F.drop O.toNat).map fmt02X ∧
        (hexGroups out).length = F.length - O.toNat) ∧
    (∀ L : Int, get_long len = .ok L → 1 ≤ L →
      ∃ out, read_data off len (some F) = .ok out ∧
        hexGroups out = ((F.drop O.toNat).take L.toNat).map fmt02X ∧
        (hexGroups out).length = min L.toNat (F.length - O.toNat)) := by
  have hall : ∀ out, out = read_loop ((F.length : Int) - O) 0 (F.drop O.toNat) →
      hexGroups out = (F.drop O.toNat).map fmt02X ∧
        (hexGroups out).length = F.length - O.toNat := by
    intro out hout
    have hg : hexGroups out = (F.drop O.toNat).map fmt02X := by
      rw [hout, hexGroups_read_loop]
      have hk : ((F.length : Int) - O - 0).toNat = (F.drop O.toNat).length := by
        rw [List.length_drop]
        omega
      rw [hk, List.take_length]
    exact ⟨hg, by rw [hg]; simp⟩
  refine ⟨?_, ?_, ?_⟩
  · intro hw
    refine ⟨_, ?_, hall _ rfl⟩
    rw [read_data_seek len hoff h0 hlt, if_pos (strcasecmp_of_isWord hw)]
  · intro L hL hL1
    have hw : strcasecmp len "all".toList ≠ 0 := get_long_ok_not_sentinel hL
    refine ⟨_, ?_, hall _ rfl⟩
    rw [read_data_seek len hoff h0 hlt, if_neg hw, hL]
    simp only [hL1, if_true]
  · intro L hL hL1
    have hw : strcasecmp len "all".toList ≠ 0 := get_long_ok_not_sentinel hL
    have hnot : ¬ L < 1 := by omega
    refine ⟨read_loop L 0 (F.drop O.toNat), ?_, ?_, ?_⟩
    · rw [read_data_seek len hoff h0 hlt, if_neg hw, hL]
      simp only [hnot, if_false]
    · rw [hexGroups_read_loop]
      simp
    · rw [hexGroups_read_loop]
      simp

/-- C4, witness: a file of five bytes read at offset 1 with the lengths `ALL`, `0`, `3` and
`9`. -/
theorem read_data_length_witness :
    (∃ out, read_data "1".toList "ALL".toList (some [10, 11, 12, 13, 14]) = .ok out ∧
        hexGroups out = ([10, 11, 12, 13, 14].drop 1).map fmt02X ∧
        (hexGroups out).length = 5 - 1) ∧
    (∃ out, read_data "1".toList "0".toList (some [10, 11, 12, 13, 14]) = .ok out ∧
        hexGroups out = ([10, 11, 12, 13, 14].drop 1).map fmt02X ∧
        (hexGroups out).length = 5 - 1) ∧
    (∃ out, read_data "1".toList "3".toList (some [10, 11, 12, 13, 14]) = .ok out ∧
        hexGroups out = (([10, 11, 12, 13, 14].drop 1).take 3).map fmt02X ∧
        (hexGroups out).length = min 3 (5 - 1)) ∧
    (∃ out, read_data "1".toList "9".toList (some [10, 11, 12, 13, 14]) = .ok out ∧
        hexGroups out = (([10, 11, 12, 13, 14].drop 1).take 9).map fmt02X ∧
        (hexGroups out).length = min 9 (5 - 1)) :=
  ⟨(read_data_length [10, 11, 12, 13, 14] "1".toList "ALL".toList 1 (by decide) (by decide)
      (by decide)).1 (by decide),
    (read_data_length [10, 11, 12, 13, 14] "1".toList "0".toList 1 (by decide) (by decide)
      (by decide)).2.1 0 (by decide) (by decide),
    (read_data_length [10, 11, 12, 13, 14] "1".toList "3".toList 1 (by decide) (by decide)
      (by decide)).2.2 3 (by decide) (by decide),
    (read_data_length [10, 11, 12, 13, 14] "1".toList "9".toList 1 (by decide) (by decide)
      (by decide)).2.2 9 (by decide) (by decide)⟩

/-- C5: for every file `F` of size `N`, `read_data` fails with the diagnostic "offset equals
or exceeds filesize", printing nothing, whenever the offset argument is the word `append` in
any letter case or parses to a value `>= N`; for an offset argument that parses to `O` with
`0 <= O < N` it does not fail with that diagnostic; every read of an empty file fails, the
two-argument form `read <file>` (offset `0`, length `all`) with that diagnostic. -/
theorem read_data_offset_check (F : List Nat) (off len : List Char) :
    (isWord "append" off →
      read_data off len (some F) = .error .offsetExceedsSize) ∧
    (∀ v : Int, get_long off = .ok v → v ≥ F.length →
      read_data off len (some F) = .error .offsetExceedsSize) ∧
    (∀ O : Int, get_long off = .ok O → 0 ≤ O → O < F.length →
      read_data off len (some F) ≠ .error .offsetExceedsSize) ∧
    (F = [] → ∃ e, read_data off len (some F) = .error e) ∧
    read_data "0".toList "all".toList (some []) = .error .offsetExceedsSize := by
  refine ⟨?_, ?_, ?_, ?_, by decide⟩
  · intro ha
    unfold read_data
    simp only [strcasecmp_of_isWord ha, if_true]
  · intro v hv hge
    exact read_data_offset_ge len hv hge
  · intro O hO h0 hlt
    rw [read_data_seek len hO h0 hlt]
    split_ifs
    · simp
    · cases hl : get_long len with
      | error e =>
        simp only []
        intro he
        have hk := get_long_error_kind len e hl
        rw [Except.error.inj he] at hk
        rcases hk with hk | hk <;> exact absurd hk (by decide)
      | ok L => simp
  · intro hF
    subst hF
    unfold read_data
    simp only []
    by_cases ha : strcasecmp off "append".toList = 0
    · rw [if_pos ha]
      exact ⟨_, rfl⟩
    · rw [if_neg ha]
      cases hl : get_long off with
      | error e => exact ⟨e, rfl⟩
      | ok v =>
        simp only []
        by_cases hv : v ≥ ((([] : List Nat).length : Nat) : Int)
        · rw [if_pos hv]
          exact ⟨_, rfl⟩
        · have hneg : v < 0 := by
            simp only [List.length_nil] at hv
            omega
          have hs : fseek v = -1 := by
            unfold fseek
            simp [hneg]
          rw [if_neg hv, if_pos hs]
          exact ⟨_, rfl⟩

/-- C5, witness: a file of three bytes read at `APPEND`, at offset 3 and at offset 2, and an
empty file read at offset 7. -/
theorem read_data_offset_check_witness :
    read_data "APPEND".toList "1".toList (some [1, 2, 3]) = .error .offsetExceedsSize ∧
    read_data "3".toList "1".toList (some [1, 2, 3]) = .error .offsetExceedsSize ∧
    read_data "2".toList "1".toList (some [1, 2, 3]) ≠ .error .offsetExceedsSize ∧
    (∃ e, read_data "7".toList "1".toList (some []) = .error e) :=
  ⟨(read_data_offset_check [1, 2, 3] "APPEND".toList "1".toList).1 (by decide),
    (read_data_offset_check [1, 2, 3] "3".toList "1".toList).2.1 3 (by decide) (by decide),
    (read_data_offset_check [1, 2, 3] "2".toList "1".toList).2.2.1 2 (by decide) (by decide)
      (by decide),
    (read_data_offset_check [] "7".toList "1".toList).2.2.2.1 rfl⟩

/-! ## Hex-dump layout (C3) -/

theorem getLast?_append_some {α : Type} (l r : List α) {a : α} (h : r.getLast? = some a) :
    (l ++ r).getLast? = some a := by
  rw [List.getLast?_append, h]
  rfl

theorem read_loop_last (len : Int) (hj4 : (toInt len).tmod 4 ≠ 0)
    (hj16 : (toInt len).tmod 16 ≠ 0) (hjl : toInt len ≠ len) (fp : List Nat) :
    ∀ i : Int, fp ≠ [] → i + fp.length = len →
      ∃ d, d < 16 ∧ (read_loop len i fp).getLast? = some (hexDigitUpper d) := by
  induction fp with
  | nil =>
    intro i h
    exact absurd rfl h
  | cons c fp1 ih =>
    intro i _ hlen
    simp only [List.length_cons, Nat.cast_add, Nat.cast_one] at hlen
    have hi : i < len := by omega
    by_cases h1 : fp1 = []
    · subst h1
      simp only [List.length_nil, Nat.cast_zero, zero_add] at hlen
      refine ⟨c % 256 % 16, by omega, ?_⟩
      rw [read_loop, read_loop]
      rw [hlen]
      simp [hi, hj4, hj16, hjl, fmt02X]
    · obtain ⟨d, hd, hR⟩ := ih (i + 1) h1 (by omega)
      obtain ⟨sp, nl, _, _, heq⟩ := read_loop_cons len i c fp1 hi
      refine ⟨d, hd, ?_⟩
      rw [heq]
      exact getLast?_append_some _ _ (getLast?_append_some _ _ hR)

theorem toInt_of_small {x : Int} (h0 : 0 ≤ x) (h1 : x ≤ INT_MAX) : toInt x = x := by
  unfold INT_MAX at h1
  unfold toInt
  omega

theorem dumpLines_nil (fuel : Nat) : dumpLines fuel [] = [] := by
  cases fuel <;> simp [dumpLines]

theorem read_loop_take (len : Int) (bs : List Nat) :
    ∀ i : Int, read_loop len i bs = read_loop len i (bs.take (len - i).toNat) := by
  induction bs with
  | nil =>
    intro i
    simp
  | cons c bs1 ih =>
    intro i
    by_cases hi : i < len
    · have hk : (len - i).toNat = (len - (i + 1)).toNat + 1 := by omega
      rw [hk, List.take_succ_cons, read_loop, read_loop]
      simp only [hi, if_true]
      rw [← ih (i + 1)]
    · rw [read_loop_done len i _ hi, read_loop_done len i _ hi]

theorem read_loop_step_small (len : Int) (c : Nat) (bs1 : List Nat) (i : Int)
    (k : Nat) (h0 : 0 ≤ i) (hk : i % 16 = (k : Int)) (hi : i < len) (hs : i + 1 ≤ INT_MAX) :
    read_loop len i (c :: bs1)
      = dumpGroup (k + 1) c
          ++ ((if i + 1 = len ∨ k = 15 then ['\n'] else []) ++ read_loop len (i + 1) bs1) := by
  have hj : toInt (i + 1) = i + 1 := toInt_of_small (by omega) hs
  have h4 : (i + 1).tmod 4 = (i + 1) % 4 := Int.tmod_eq_emod (by omega) (by decide)
  have h16 : (i + 1).tmod 16 = (i + 1) % 16 := Int.tmod_eq_emod (by omega) (by decide)
  have hg : (i > 0 ∧ (i + 1) % 4 = 0 ∧ (i + 1) % 16 ≠ 0) ↔ (k + 1 = 4 ∨ k + 1 = 8 ∨ k + 1 = 12) := by
    omega
  have he : (i + 1 = len ∨ (i > 0 ∧ (i + 1) % 16 = 0)) ↔ (i + 1 = len ∨ k = 15) := by
    omega
  rw [read_loop]
  simp only [hi, if_true, hj, h4, h16, dumpGroup]
  by_cases hgc : k + 1 = 4 ∨ k + 1 = 8 ∨ k + 1 = 12
  · rw [if_pos (hg.2 hgc), if_pos hgc]
    by_cases hec : i + 1 = len ∨ k = 15
    · rw [if_pos (he.2 hec), if_pos hec]
      simp
    · rw [if_neg (fun h => hec (he.1 h)), if_neg hec]
      simp
  · rw [if_neg (fun h => hgc (hg.1 h)), if_neg hgc]
    by_cases hec : i + 1 = len ∨ k = 15
    · rw [if_pos (he.2 hec), if_pos hec]
      simp
    · rw [if_neg (fun h => hec (he.1 h)), if_neg hec]
      simp

theorem read_loop_step (len : Int) (hmax : len ≤ INT_MAX) (c : Nat) (bs1 : List Nat) (i : Int)
    (k : Nat) (h0 : 0 ≤ i) (hk : i % 16 = (k : Int)) (hi : i < len) :
    read_loop len i (c :: bs1)
      = dumpGroup (k + 1) c
          ++ ((if i + 1 = len ∨ k = 15 then ['\n'] else []) ++ read_loop len (i + 1) bs1) :=
  read_loop_step_small len c bs1 i k h0 hk hi (by omega)

theorem read_loop_layout (len : Int) (hmax : len ≤ INT_MAX) (bs : List Nat) :
    ∀ (i : Int) (k fuel : Nat), bs ≠ [] → 0 ≤ i → i % 16 = (k : Int) →
      i + bs.length = len → (bs.drop (16 - k)).length ≤ fuel →
      read_loop len i bs
        = dumpLineFrom k (bs.take (16 - k)) ++ dumpLines fuel (bs.drop (16 - k)) := by
  induction bs with
  | nil =>
    intro i k fuel h
    exact absurd rfl h
  | cons c bs1 ih =>
    intro i k fuel _ h0 hk hlen hfuel
    simp only [List.length_cons, Nat.cast_add, Nat.cast_one] at hlen
    have hi : i < len := by omega
    have hk16 : k < 16 := by omega
    have hsub : 16 - k = (15 - k) + 1 := by omega
    rw [read_loop_step len hmax c bs1 i k h0 hk hi, hsub, List.take_succ_cons,
      List.drop_succ_cons]
    rw [hsub, List.drop_succ_cons] at hfuel
    simp only [dumpLineFrom, List.append_assoc]
    congr 1
    by_cases h1 : bs1 = []
    · subst h1
      have hlen1 : i + 1 = len := by
        simpa using hlen
      rw [if_pos (Or.inl hlen1), read_loop_done len (i + 1) [] (by omega)]
      simp [dumpLineFrom, dumpLines_nil]
    · have hpos : 0 < bs1.length := List.length_pos.2 h1
      by_cases h15 : k = 15
      · subst h15
        rw [if_pos (Or.inr rfl)]
        simp only [Nat.sub_self, List.take_zero, List.drop_zero, dumpLineFrom,
          List.length_drop, Nat.sub_zero] at hfuel ⊢
        obtain ⟨f, rfl⟩ : ∃ f, fuel = f + 1 := ⟨fuel - 1, by omega⟩
        rw [dumpLines, if_neg h1, dumpLine]
        have := ih (i + 1) 0 f h1 (by omega) (by omega) (by omega)
          (by rw [List.length_drop]; omega)
        simpa using this
      · have hne : ¬ (i + 1 = len ∨ k = 15) := by
          rintro (h | h)
          · omega
          · exact h15 h
        rw [if_neg hne]
        have hs : 16 - (k + 1) = 15 - k := by omega
        have := ih (i + 1) (k + 1) fuel h1 (by omega) (by omega) (by omega)
          (by rw [hs]; exact hfuel)
        rw [hs] at this
        simpa using this

/-- The layout of C3 for every length up to `INT_MAX`: for every file `F`, every offset
argument that parses to `O` with `0 <= O < |F|` and every length argument that parses to `L`
with `1 <= L <= |F| - O` and `L <= INT_MAX`, the text printed by `read_data` is the reference
layout of the bytes `F[O..O+L)`: lines of sixteen groups (the last line of the groups that
remain), every group one space and the two uppercase hexadecimal digits of its byte, one
additional space after the 4th, 8th and 12th group of a line, one newline after each line. -/
theorem read_data_layout (F : List Nat) (off len : List Char) (O L : Int)
    (hoff : get_long off = .ok O) (h0 : 0 ≤ O) (hlt : O < F.length)
    (hL : get_long len = .ok L) (h1 : 1 ≤ L) (hle : L ≤ F.length - O) (hmax : L ≤ INT_MAX) :
    read_data off len (some F) = .ok (dumpRef ((F.drop O.toNat).take L.toNat)) := by
  have hw : strcasecmp len "all".toList ≠ 0 := get_long_ok_not_sentinel hL
  have hnot : ¬ L < 1 := by omega
  rw [read_data_seek len hoff h0 hlt, if_neg hw, hL]
  simp only [hnot, if_false]
  congr 1
  have hlen : ((F.drop O.toNat).take L.toNat).length = L.toNat := by
    rw [List.length_take, List.length_drop]
    omega
  have hne : (F.drop O.toNat).take L.toNat ≠ [] := by
    intro h
    rw [h] at hlen
    simp only [List.length_nil] at hlen
    omega
  have ht := read_loop_take L (F.drop O.toNat) 0
  simp only [sub_zero] at ht
  rw [ht]
  have := read_loop_layout L hmax _ 0 0 (L.toNat - 1) hne (le_refl 0) (by decide)
    (by rw [hlen]; omega) (by rw [List.length_drop, hlen]; omega)
  rw [this]
  unfold dumpRef
  rw [hlen]
  obtain ⟨n, hn⟩ : ∃ n, L.toNat = n + 1 := ⟨L.toNat - 1, by omega⟩
  rw [hn] at hne ⊢
  rw [dumpLines, if_neg hne, dumpLine]
  simp

/-- The reference layout on the eighteen bytes `0..17`: a full line and a line of two groups. -/
theorem dumpRef_example :
    dumpRef (List.range 18)
      = " 00 01 02 03  04 05 06 07  08 09 0A 0B  0C 0D 0E 0F\n 10 11\n".toList := by
  decide

/-- An instance of `read_data_layout`: four bytes read from offset 1 of a six-byte file. -/
theorem read_data_layout_example :
    read_data "1".toList "4".toList (some [0, 171, 205, 239, 18, 52])
      = .ok " AB CD EF 12 \n".toList := by
  rw [read_data_layout [0, 171, 205, 239, 18, 52] "1".toList "4".toList 1 4 (by decide)
    (by decide) (by decide) (by decide) (by decide) (by decide) (by decide)]
  decide

/-- C3, failing input: a file of `2^31 + 1` bytes, offset `0`, length `2147483649` (the whole
file, so `0 <= O < |F|` and `1 <= L <= |F| - O`). `read_data` succeeds, but the text it
prints does not end with a newline: its last character is a hexadecimal digit. -/
theorem read_data_no_final_newline :
    (List.replicate 2147483649 0).length = 2147483649 ∧
    get_long "0".toList = .ok 0 ∧ get_long "2147483649".toList = .ok 2147483649 ∧
    ∃ out, read_data "0".toList "2147483649".toList (some (List.replicate 2147483649 0))
        = .ok out ∧ out.getLast? ≠ some '\n' := by
  have hlen : (List.replicate 2147483649 (0 : Nat)).length = 2147483649 :=
    List.length_replicate _ _
  have hne : List.replicate 2147483649 (0 : Nat) ≠ [] := by
    intro h
    have h2 := congrArg List.length h
    rw [hlen] at h2
    exact absurd h2 (by decide)
  have hoff : get_long "0".toList = .ok 0 := by decide
  have hL : get_long "2147483649".toList = .ok 2147483649 := by decide
  have hw : strcasecmp "2147483649".toList "all".toList ≠ 0 := by decide
  have hlt : (0 : Int) < ((List.replicate 2147483649 (0 : Nat)).length : Int) := by
    rw [hlen]
    decide
  obtain ⟨d, hd, hlast⟩ := read_loop_last 2147483649 (by decide) (by decide) (by decide)
    (List.replicate 2147483649 (0 : Nat)) 0 hne (by rw [hlen]; rfl)
  refine ⟨hlen, hoff, hL, read_loop 2147483649 0 (List.replicate 2147483649 0), ?_, ?_⟩
  · rw [read_data_seek _ hoff (le_refl 0) hlt, if_neg hw, hL]
    show Except.ok (read_loop (if (2147483649 : Int) < 1 then _ else 2147483649) 0
      (List.drop (0 : Int).toNat (List.replicate 2147483649 0))) = _
    rw [if_neg (by decide), Int.toNat_zero, List.drop_zero]
  · rw [hlast]
    intro h
    have h2 := hexDigitUpper_not_sep d hd
    rw [Option.some.inj h] at h2
    exact absurd h2 (by decide)

/-! ## Write/read round trip (C1) -/

theorem sysWrite_nil (fd : Fd) : sysWrite fd [] = fd := by
  simp [sysWrite]

theorem write_all (room : Nat) (fd : Fd) (bs : List Nat) (h : bs.length ≤ room) :
    write room fd bs = ((bs.length : Int), sysWrite fd bs, room - bs.length) := by
  have hc : ¬ (bs ≠ [] ∧ room = 0) := by
    rintro ⟨hb, hr⟩
    have hpos := List.length_pos.2 hb
    omega
  unfold write
  rw [if_neg hc, List.take_of_length_le h]

theorem write_short (room : Nat) (fd : Fd) (bs : List Nat) (h : room < bs.length) :
    (write room fd bs).1 ≠ (bs.length : Int) := by
  unfold write
  by_cases hr : room = 0
  · have hb : bs ≠ [] := by
      rintro rfl
      simp at h
    rw [if_pos ⟨hb, hr⟩]
    simp only []
    omega
  · have hc : ¬ (bs ≠ [] ∧ room = 0) := fun hc => hr hc.2
    rw [if_neg hc]
    simp only [List.length_take]
    omega

theorem write_to_file_seek_error (sys : Sys) (file : Option (List Nat)) (data : List Nat)
    (byte : Option Nat) (off : List Char) (n O : Int) (hopen : sys.canOpen = true)
    (hoff : get_long off = .ok O) (h0 : 0 ≤ O) (hsk : toInt O = -1) :
    write_to_file sys file data byte off n = .error .lseekFailed := by
  have hna : strcasecmp off "append".toList ≠ 0 := get_long_ok_not_sentinel hoff
  have hneg : ¬ O < 0 := by omega
  unfold write_to_file
  simp only [hopen, Bool.true_eq_false, hna, hoff, if_false, lseek, hneg, hsk, if_true]

/-- C1, failing input: a file `F` of `2^32 - 1` bytes, the offset `4294967295` (`0 <= O <=
|F|`) and the byte sequence `AB`, on a system that opens the file and accepts the byte.
`write_to_file` writes nothing and reports a failed seek, and `read_data` with that offset and
length 1 on the file, which is as it was, prints nothing: there is no round trip. -/
theorem write_to_file_seek_4GiB :
    (List.replicate 4294967295 0).length = 4294967295 ∧
    get_long "4294967295".toList = .ok 4294967295 ∧
    write_to_file (sysRoom 1) (some (List.replicate 4294967295 0)) [0xAB] none
      "4294967295".toList 1 = .error .lseekFailed ∧
    read_data "4294967295".toList "1".toList (some (List.replicate 4294967295 0))
      = .error .offsetExceedsSize :=
  ⟨List.length_replicate _ _, by decide,
    write_to_file_seek_error _ _ _ _ _ _ 4294967295 rfl (by decide) (by decide) (by decide),
    read_data_offset_ge (v := 4294967295) _ (by decide)
      (by rw [List.length_replicate]; decide)⟩

theorem write_to_file_data {sys : Sys} {F B : List Nat} {off : List Char} {O : Int}
    (hopen : sys.canOpen = true) (hroom : B.length ≤ sys.room)
    (hoff : get_long off = .ok O) (h0 : 0 ≤ O) (hle : O ≤ F.length) (hB : B ≠ [])
    (hsk : toInt O ≠ -1) :
    write_to_file sys (some F) B none off B.length
      = .ok (F.take O.toNat ++ B ++ F.drop (O.toNat + B.length)) := by
  have hna : strcasecmp off "append".toList ≠ 0 := get_long_ok_not_sentinel hoff
  have hneg : ¬ O < 0 := by omega
  have hz : O.toNat - F.length = 0 := by omega
  unfold write_to_file
  simp only [hopen, Bool.true_eq_false, hna, hoff, if_false, lseek, hneg, hsk,
    Option.getD_some, Int.toNat_ofNat, List.take_length, write_all _ _ B hroom, sysWrite, hB,
    ne_eq, not_true_eq_false, hz, List.replicate_zero, List.append_nil]

/-- The write/read round trip of C1 for every offset whose seek is not misreported: for every
file `F` that the system opens, every offset argument that parses to `O` with `0 <= O <= |F|`
and whose conversion to `int` is not `-1`, and every non-empty byte sequence `B` that the
system accepts, `write_to_file` succeeds, changes only the range written, and `read_data` with
that offset and a length argument that parses to `|B|` prints exactly the bytes of `B` as hex
groups. -/
theorem write_read_roundtrip_of_seek (sys : Sys) (F B : List Nat) (off len : List Char)
    (O : Int) (hopen : sys.canOpen = true) (hroom : B.length ≤ sys.room)
    (hoff : get_long off = .ok O) (h0 : 0 ≤ O) (hle : O ≤ F.length) (hB : B ≠ [])
    (hsk : toInt O ≠ -1) (hlen : get_long len = .ok (B.length : Int)) :
    ∃ F1, write_to_file sys (some F) B none off B.length = .ok F1 ∧
      F1 = F.take O.toNat ++ B ++ F.drop (O.toNat + B.length) ∧
      ∃ out, read_data off len (some F1) = .ok out ∧ hexGroups out = B.map fmt02X := by
  have hBl : 0 < B.length := List.length_pos.2 hB
  refine ⟨_, write_to_file_data hopen hroom hoff h0 hle hB hsk, rfl, ?_⟩
  have htake : (F.take O.toNat).length = O.toNat := by
    rw [List.length_take]
    omega
  have hlt : O < ((F.take O.toNat ++ B ++ F.drop (O.toNat + B.length)).length : Int) := by
    rw [List.length_append, List.length_append, htake]
    omega
  have hw : strcasecmp len "all".toList ≠ 0 := get_long_ok_not_sentinel hlen
  have hnot : ¬ ((B.length : Int) < 1) := by omega
  refine ⟨read_loop B.length 0
    ((F.take O.toNat ++ B ++ F.drop (O.toNat + B.length)).drop O.toNat), ?_, ?_⟩
  · rw [read_data_seek len hoff h0 hlt, if_neg hw, hlen]
    simp only [hnot, if_false]
  · rw [hexGroups_read_loop, List.append_assoc, List.drop_left' htake]
    simp

/-- An instance of `write_read_roundtrip_of_seek`: the bytes `DE AD` written at offset 1 of a
four-byte file and read back. -/
theorem write_read_roundtrip_example :
    ∃ F1, write_to_file (sysRoom 2) (some [1, 2, 3, 4]) [0xDE, 0xAD] none "1".toList 2
        = .ok F1 ∧
      F1 = [1, 0xDE, 0xAD, 4] ∧
      ∃ out, read_data "1".toList "2".toList (some F1) = .ok out ∧
        hexGroups out = ["DE".toList, "AD".toList] :=
  write_read_roundtrip_of_seek (sysRoom 2) [1, 2, 3, 4] [0xDE, 0xAD] "1".toList "2".toList 1
    rfl (by decide) (by decide) (by decide) (by decide) (by decide) (by decide) (by decide)

/-! ## Hex-string decoding: rejection (C11) and buffer bound (C20) -/

theorem hexRun_bad (ps : List Char) (c : Char) (h : ps.find? isBadHex = some c) :
    ∀ st : HexState, (st.buf2 = Char.ofNat 0 ∨ isxdigit st.buf2 = true) →
      hexRun ps st = .error (.notHexDigit c) := by
  induction ps with
  | nil => simp at h
  | cons p ps ih =>
    intro st hst
    by_cases hsp : isspace p = true
    · have hb : isBadHex p = false := by simp [isBadHex, hsp]
      rw [List.find?_cons, hb] at h
      have := ih h st hst
      simpa [hexRun, hex_loop, hsp] using this
    · have hsp : isspace p = false := by simpa using hsp
      by_cases hx : isxdigit p = true
      · have hb : isBadHex p = false := by simp [isBadHex, hx]
        rw [List.find?_cons, hb] at h
        have ih1 := ih h
        rcases hst with h0 | hd
        · have := ih1 { st with buf2 := p } (Or.inr hx)
          simpa [hexRun, hex_loop, hsp, hx, h0] using this
        · have := ih1 ⟨Char.ofNat 0, st.data ++ [16 * hexVal st.buf2 + hexVal p],
            st.num_bytes + 1⟩ (Or.inl rfl)
          simpa [hexRun, hex_loop, hsp, hx, isxdigit_ne_nul hd, strtouchar_hex2 hd hx]
            using this
      · have hx : isxdigit p = false := by simpa using hx
        have hb : isBadHex p = true := by simp [isBadHex, hsp, hx]
        rw [List.find?_cons, hb] at h
        have hc : p = c := Option.some.inj h
        subst hc
        simp [hexRun, hex_loop, hsp, hx]

theorem find_isBadHex_none {s : List Char} (h : s.find? isBadHex = none) :
    ∀ c ∈ s, isxdigit c = true ∨ isspace c = true := by
  intro c hc
  have := List.find?_eq_none.1 h c hc
  simp only [isBadHex, Bool.and_eq_true, Bool.not_eq_true', not_and, Bool.not_eq_false] at this
  by_cases hs : isspace c = true
  · exact Or.inr hs
  · exact Or.inl (this (by simpa using hs))

theorem hex_to_uchar_eq (s : List Char) :
    hex_to_uchar s =
      match s.find? isBadHex with
      | some c => .error (.notHexDigit c)
      | none => .ok (decodeRef s, (decodeRef s).length) := by
  cases h : s.find? isBadHex with
  | some c =>
    rw [hex_to_uchar_eq_hexRun]
    exact hexRun_bad s c h _ (Or.inl rfl)
  | none =>
    rw [hex_to_uchar_eq_hexRun, (hexRun_spec s (find_isBadHex_none h)).1 [] 0]
    simp [decodeRef, hexDigitsOf]

theorem hex_to_uchar_ok {s : List Char} {data : List Nat} {nb : Nat}
    (h : hex_to_uchar s = .ok (data, nb)) :
    data = decodeRef s ∧ nb = data.length ∧ ∀ c ∈ s, isxdigit c = true ∨ isspace c = true := by
  rw [hex_to_uchar_eq] at h
  cases hf : s.find? isBadHex with
  | some c =>
    rw [hf] at h
    exact absurd h (by simp)
  | none =>
    rw [hf] at h
    have h1 := Except.ok.inj h
    simp only [Prod.mk.injEq] at h1
    refine ⟨h1.1.symm, ?_, find_isBadHex_none hf⟩
    rw [← h1.2, ← h1.1]

/-- C11: for every string `s`, `hex_to_uchar s` fails with the "not a hexadecimal digit"
diagnostic if and only if `s` contains a character that is neither white space nor a
hexadecimal digit; the character reported is the first such character of `s`, no byte
sequence is returned, and the function fails in no other way; `zz` is rejected reporting
`z`. -/
theorem hex_to_uchar_rejects (s : List Char) :
    ((∃ c, hex_to_uchar s = .error (.notHexDigit c)) ↔
      ∃ c ∈ s, isspace c = false ∧ isxdigit c = false) ∧
    (∀ c, hex_to_uchar s = .error (.notHexDigit c) → s.find? isBadHex = some c) ∧
    (∀ e, hex_to_uchar s = .error e → ∃ c, e = .notHexDigit c) ∧
    hex_to_uchar "zz".toList = .error (.notHexDigit 'z') := by
  refine ⟨?_, ?_, ?_, by decide⟩
  · constructor
    · rintro ⟨c, hc⟩
      rw [hex_to_uchar_eq] at hc
      cases hf : s.find? isBadHex with
      | some d =>
        have hmem := List.mem_of_find?_eq_some hf
        have hbad := List.find?_some hf
        simp only [isBadHex, Bool.and_eq_true, Bool.not_eq_true'] at hbad
        exact ⟨d, hmem, hbad.1, hbad.2⟩
      | none =>
        rw [hf] at hc
        exact absurd hc (by simp)
    · rintro ⟨c, hc, hs, hx⟩
      rw [hex_to_uchar_eq]
      cases hf : s.find? isBadHex with
      | some d => exact ⟨d, rfl⟩
      | none =>
        have := List.find?_eq_none.1 hf c hc
        simp [isBadHex, hs, hx] at this
  · intro c hc
    rw [hex_to_uchar_eq] at hc
    cases hf : s.find? isBadHex with
    | some d =>
      rw [hf] at hc
      have := Except.error.inj hc
      simp only [Err.notHexDigit.injEq] at this
      rw [this]
    | none =>
      rw [hf] at hc
      exact absurd hc (by simp)
  · intro e he
    rw [hex_to_uchar_eq] at he
    cases hf : s.find? isBadHex with
    | some d =>
      rw [hf] at he
      exact ⟨d, (Except.error.inj he).symm⟩
    | none =>
      rw [hf] at he
      exact absurd he (by simp)

/-- C11, witness: in `4g z` the first rejected character is `g`. -/
theorem hex_to_uchar_rejects_witness :
    (∃ c, hex_to_uchar "4g z".toList = .error (.notHexDigit c)) ∧
    "4g z".toList.find? isBadHex = some 'g' :=
  ⟨(hex_to_uchar_rejects "4g z".toList).1.2 ⟨'g', by decide, by decide, by decide⟩,
    (hex_to_uchar_rejects "4g z".toList).2.1 'g' (by decide)⟩

theorem pairBytes_length : ∀ l : List Nat, (pairBytes l).length = (l.length + 1) / 2
  | [] => by simp [pairBytes]
  | [_] => by simp [pairBytes]
  | _ :: _ :: t => by
    simp only [pairBytes, List.length_cons, pairBytes_length t]
    omega

theorem isxdigit_not_isspace {c : Char} (h : isxdigit c = true) : isspace c = false :=
  isDigitOf_not_isspace (isxdigit_isDigitOf h)

/-- C20: for every input string `s` of length `n` on which `hex_to_uchar` does not fail, the
number of bytes it stores (the bytes are stored at the indices `0, 1, 2, ...` in order) equals
`ceil(d/2)`, where `d` is the number of hexadecimal digits in `s`, and is at most
`floor(n/2) + 1`, so every index it stores to is smaller than the `floor(n/2) + 2` bytes it
allocated; and the byte count it reports equals the number of bytes stored. -/
theorem hex_to_uchar_bound (s : List Char) (data : List Nat) (nb : Nat)
    (h : hex_to_uchar s = .ok (data, nb)) :
    data.length = ((s.filter isxdigit).length + 1) / 2 ∧
    data.length ≤ s.length / 2 + 1 ∧
    (∀ i, i < data.length → i < s.length / 2 + 2) ∧
    nb = data.length := by
  obtain ⟨hd, hnb, hvalid⟩ := hex_to_uchar_ok h
  have hfilter : s.filter isxdigit = s.filter (fun c => !isspace c) := by
    apply List.filter_congr
    intro c hc
    rcases hvalid c hc with hx | hs
    · simp [hx, isxdigit_not_isspace hx]
    · have hx : isxdigit c = false := by
        by_contra hx
        have := isxdigit_not_isspace (by simpa using hx)
        rw [hs] at this
        exact absurd this (by simp)
      simp [hx, hs]
  have hlen : data.length = ((s.filter isxdigit).length + 1) / 2 := by
    rw [hd, decodeRef, pairBytes_length, List.length_map, hfilter]
  have hle : (s.filter isxdigit).length ≤ s.length := List.length_filter_le _ _
  refine ⟨hlen, by omega, fun i hi => by omega, hnb⟩

/-- C20, witness: the string `de ad b` of length 7 with five digits stores three bytes. -/
theorem hex_to_uchar_bound_witness :
    [0xDE, 0xAD, 0x0B].length = (("de ad b".toList.filter isxdigit).length + 1) / 2 ∧
    [0xDE, 0xAD, 0x0B].length ≤ "de ad b".toList.length / 2 + 1 ∧
    (∀ i, i < [0xDE, 0xAD, 0x0B].length → i < "de ad b".toList.length / 2 + 2) ∧
    3 = [0xDE, 0xAD, 0x0B].length :=
  hex_to_uchar_bound "de ad b".toList [0xDE, 0xAD, 0x0B] 3 (by decide)

/-! ## Lemmas: `write_to_file` -/

theorem sysWrite_sysWrite (fd : Fd) (a b : List Nat) :
    sysWrite (sysWrite fd a) b = sysWrite fd (a ++ b) := by
  by_cases ha : a = []
  · subst ha
    simp [sysWrite_nil]
  by_cases hb : b = []
  · subst hb
    simp [sysWrite_nil]
  have hab : a ++ b ≠ [] := by simp [ha]
  have hpre : ((fd.content ++ List.replicate (fd.pos - fd.content.length) 0).take fd.pos).length
      = fd.pos := by
    rw [List.length_take, List.length_append, List.length_replicate]
    omega
  simp only [sysWrite, ha, hb, hab, if_false]
  congr 1
  · generalize hP : (fd.content ++ List.replicate (fd.pos - fd.content.length) 0).take fd.pos
      = P at hpre ⊢
    have hz : fd.pos + a.length - (P ++ a ++ fd.content.drop (fd.pos + a.length)).length = 0 := by
      simp only [List.length_append, hpre]
      omega
    have htake : (P ++ a ++ fd.content.drop (fd.pos + a.length)).take (fd.pos + a.length)
        = P ++ a := List.take_left' (by simp [hpre])
    have hdrop : (P ++ a ++ fd.content.drop (fd.pos + a.length)).drop
        (fd.pos + a.length + b.length) = fd.content.drop (fd.pos + (a ++ b).length) := by
      rw [← List.drop_drop, List.drop_left' (by simp [hpre]), List.drop_drop, List.length_append]
      congr 1
      omega
    rw [hz, List.replicate_zero, List.append_nil, htake, hdrop]
    simp
  · simp only [List.length_append]
    omega

theorem memset_loop_eq (b : Nat) (n : Int) :
    ∀ (fuel : Nat) (w : Int) (fd : Fd) (room : Nat), w + fuel = n → fuel ≤ room →
      memset_loop b n fuel w fd room = (n, sysWrite fd (List.replicate fuel b)) := by
  intro fuel
  induction fuel with
  | zero =>
    intro w fd room h _
    simp only [Nat.cast_zero, add_zero] at h
    simp [memset_loop, sysWrite_nil, h]
  | succ k ih =>
    intro w fd room h hr
    simp only [Nat.cast_add, Nat.cast_one] at h
    have hlt : w < n := by omega
    have hw : write room fd [b] = (1, sysWrite fd [b], room - 1) := by
      have h1 := write_all room fd [b] (by simp only [List.length_singleton]; omega)
      simpa using h1
    rw [memset_loop, if_pos hlt]
    simp only [hw, ne_eq, not_true_eq_false, if_false]
    rw [ih (w + 1) _ (room - 1) (by omega) (by omega), sysWrite_sysWrite]
    rfl

theorem memset_loop_short (b : Nat) (n : Int) :
    ∀ (fuel : Nat) (w : Int) (fd : Fd) (room : Nat), w + fuel = n → room < fuel →
      (memset_loop b n fuel w fd room).1 = w + room := by
  intro fuel
  induction fuel with
  | zero =>
    intro w fd room _ hr
    omega
  | succ k ih =>
    intro w fd room h hr
    simp only [Nat.cast_add, Nat.cast_one] at h
    have hlt : w < n := by omega
    rw [memset_loop, if_pos hlt]
    by_cases h0 : room = 0
    · subst h0
      have hw : write 0 fd [b] = (-1, fd, 0) := by
        unfold write
        rw [if_pos ⟨by simp, rfl⟩]
      have hne : ¬ ((-1 : Int) = 1) := by decide
      simp only [hw, ne_eq, hne, not_false_eq_true, if_true, Nat.cast_zero, add_zero]
    · have hw : write room fd [b] = (1, sysWrite fd [b], room - 1) := by
        have h1 := write_all room fd [b] (by simp only [List.length_singleton]; omega)
        simpa using h1
      simp only [hw, ne_eq, not_true_eq_false, if_false]
      rw [ih (w + 1) _ (room - 1) (by omega) (by omega)]
      omega

theorem write_to_file_eq (sys : Sys) (file : Option (List Nat)) (data : List Nat)
    (byte : Option Nat) (off : List Char) (num : Int) (hnum : 0 ≤ num)
    (hd : byte = none → num.toNat ≤ data.length) :
    write_to_file sys file data byte off num =
      if sys.canOpen = false then .error .openFailed
      else
        match seekOf (file.getD []) off with
        | .error e => .error e
        | .ok p =>
          if toInt p = -1 then .error .lseekFailed
          else if num.toNat ≤ sys.room then
            .ok (sysWrite ⟨file.getD [], p.toNat⟩ (bytesWritten data byte num)).content
          else .error .writeFailed := by
  unfold write_to_file
  by_cases hopen : sys.canOpen = false
  · rw [if_pos hopen, if_pos hopen]
  rw [if_neg hopen, if_neg hopen]
  simp only []
  have hs : (if strcasecmp off "append".toList = 0 then
        (Except.ok (lseek (file.getD []).length 0 .SEEK_END) : Except Err Int)
      else
        match get_long off with
        | .error e => .error e
        | .ok o => .ok (lseek (file.getD []).length o .SEEK_SET)) = seekOf (file.getD []) off := rfl
  rw [hs]
  cases seekOf (file.getD []) off with
  | error e => rfl
  | ok p =>
    simp only []
    by_cases hsk : toInt p = -1
    · rw [if_pos hsk, if_pos hsk]
    rw [if_neg hsk, if_neg hsk]
    cases byte with
    | none =>
      have hlen : (data.take num.toNat).length = num.toNat := by
        rw [List.length_take]
        exact Nat.min_eq_left (hd rfl)
      have hcast : ((num.toNat : Nat) : Int) = num := Int.toNat_of_nonneg hnum
      by_cases hr : num.toNat ≤ sys.room
      · have hw := write_all sys.room ⟨file.getD [], p.toNat⟩ (data.take num.toNat)
          (by rw [hlen]; exact hr)
        rw [hlen, hcast] at hw
        simp [bytesWritten, hw, hr]
      · have hw := write_short sys.room ⟨file.getD [], p.toNat⟩ (data.take num.toNat)
          (by rw [hlen]; omega)
        rw [hlen, hcast] at hw
        simp [hw, hr]
    | some b =>
      by_cases hr : num.toNat ≤ sys.room
      · have hm := memset_loop_eq b num num.toNat 0 ⟨file.getD [], p.toNat⟩ sys.room
          (by omega) hr
        simp [bytesWritten, hm, hr]
      · have hm := memset_loop_short b num num.toNat 0 ⟨file.getD [], p.toNat⟩ sys.room
          (by omega) (by omega)
        have hne :
            (memset_loop b num num.toNat 0 ⟨file.getD [], p.toNat⟩ sys.room).1 ≠ num := by
          rw [hm]
          omega
        simpa [hr] using hne

theorem lseek_ge (size : Nat) (off : Int) (w : Whence) : -1 ≤ lseek size off w := by
  unfold lseek
  simp only []
  split_ifs <;> omega

theorem seekOf_numeric {F : List Nat} {off : List Char} {O : Int} (h : get_long off = .ok O)
    (h0 : 0 ≤ O) : seekOf F off = .ok O := by
  have hna : strcasecmp off "append".toList ≠ 0 := get_long_ok_not_sentinel h
  have hneg : ¬ O < 0 := by omega
  unfold seekOf lseek
  simp only [hna, if_false, h, hneg]

theorem seekOf_append {F : List Nat} {off : List Char} (h : isWord "append" off) :
    seekOf F off = .ok (F.length : Int) := by
  have hz : strcasecmp off "append".toList = 0 := strcasecmp_of_isWord h
  have hneg : ¬ ((F.length : Int) < 0) := by omega
  unfold seekOf lseek
  simp only [hz, if_true, add_zero, hneg, if_false]

theorem sysWrite_within {F : List Nat} {O : Nat} (bs : List Nat) (hO : O ≤ F.length) :
    (sysWrite ⟨F, O⟩ bs).content = F.take O ++ bs ++ F.drop (O + bs.length) := by
  by_cases hb : bs = []
  · subst hb
    simp [sysWrite_nil]
  · have hz : O - F.length = 0 := by omega
    simp [sysWrite, hb, hz]

theorem frame_of_splice (F bs : List Nat) (O : Nat) (hO : O ≤ F.length) :
    Frame F (F.take O ++ bs ++ F.drop (O + bs.length)) O bs.length := by
  have htake : (F.take O).length = O := by
    rw [List.length_take]
    omega
  refine ⟨?_, ?_, ?_⟩
  · simp only [List.length_append, htake, List.length_drop]
    omega
  · intro i hi
    rw [List.append_assoc, List.getElem?_append_left (by omega), List.getElem?_take_of_lt hi]
  · intro i hi hlt
    rw [List.getElem?_append_right (by simp only [List.length_append, htake]; omega),
      List.getElem?_drop]
    congr 1
    simp only [List.length_append, htake]
    omega

theorem bytesWritten_length_data (data : List Nat) :
    bytesWritten data none (data.length : Int) = data := by
  simp [bytesWritten]

theorem write_to_file_splice {sys : Sys} {file : Option (List Nat)} {data : List Nat}
    {byte : Option Nat} {off : List Char} {num O : Int} {F1 : List Nat}
    (hoff : get_long off = .ok O) (h0 : 0 ≤ O) (hle : O ≤ (file.getD []).length)
    (hnum : 0 ≤ num) (hd : byte = none → num.toNat ≤ data.length)
    (h : write_to_file sys file data byte off num = .ok F1) :
    F1 = (file.getD []).take O.toNat ++ bytesWritten data byte num ++
      (file.getD []).drop (O.toNat + (bytesWritten data byte num).length) := by
  rw [write_to_file_eq _ _ _ _ _ _ hnum hd, seekOf_numeric hoff h0] at h
  simp only [] at h
  split_ifs at h
  rw [← Except.ok.inj h]
  exact sysWrite_within _ (by omega)

theorem write_data_eq {arg : List Char} {data : List Nat} {nb : Nat} (sys : Sys)
    (off : List Char) (file : Option (List Nat)) (hne : cAt arg 0 ≠ Char.ofNat 0)
    (hd : hex_to_uchar arg = .ok (data, nb)) :
    write_data sys off arg file = write_to_file sys file data none off nb := by
  unfold write_data
  simp only [hne, if_false, hd]

theorem memset_write_data_eq {len ch : List Char} {C : Int} {V : Nat} (sys : Sys)
    (off : List Char) (file : Option (List Nat)) (hl : get_long len = .ok C) (hC : 1 ≤ C)
    (hv : get_uchar ch = .ok V) :
    memset_write_data sys off len ch file = write_to_file sys file [] (some V) off C := by
  have hnot : ¬ C < 1 := by omega
  unfold memset_write_data
  simp only [hl, hnot, if_false, hv]

theorem write_to_file_append_seek_error {F : List Nat} {off : List Char} (sys : Sys)
    (data : List Nat) (byte : Option Nat) {num : Int} (hopen : sys.canOpen = true)
    (hw : isWord "append" off) (hnum : 0 ≤ num) (hd : byte = none → num.toNat ≤ data.length)
    (hsk : toInt (F.length : Int) = -1) :
    write_to_file sys (some F) data byte off num = .error .lseekFailed := by
  rw [write_to_file_eq _ _ _ _ _ _ hnum hd]
  simp only [hopen, Bool.true_eq_false, if_false, Option.getD_some, seekOf_append hw, hsk,
    if_true]

theorem write_to_file_append {sys : Sys} {file : Option (List Nat)} {off : List Char}
    (B : List Nat) (hopen : sys.canOpen = true) (hroom : B.length ≤ sys.room)
    (hw : isWord "append" off) (hsk : toInt ((file.getD []).length : Int) ≠ -1) :
    write_to_file sys file B none off B.length = .ok (file.getD [] ++ B) := by
  rw [write_to_file_eq _ _ _ _ _ _ (by omega) (by simp), seekOf_append hw]
  simp only [hopen, Bool.true_eq_false, hsk, if_false, Int.toNat_ofNat, hroom, if_true,
    bytesWritten_length_data]
  rw [sysWrite_within _ (le_refl _)]
  simp

/-! ## Frame of a write (C12), append (C13), memset on a fresh file (C14), seek (C16) -/

/-- C12: for every file `F` of size `N` (absent: empty) and every successful write or memset
of `n` bytes at an offset argument that parses to `O` with `0 <= O <= N`, the resulting file
has size `max(N, O + n)`, every byte at a position below `O` is unchanged, and every byte of
the original file at a position `>= O + n` is unchanged at the same position; `n` is the
number of bytes decoded from the data argument, or the parsed length argument of memset. This
holds whatever the system does with `open` and `write`. -/
theorem write_frame (sys : Sys) (off : List Char) (file : Option (List Nat)) (O : Int)
    (F1 : List Nat) (hoff : get_long off = .ok O) (h0 : 0 ≤ O)
    (hle : O ≤ (file.getD []).length) :
    (∀ arg : List Char, write_data sys off arg file = .ok F1 →
      ∃ data, hex_to_uchar arg = .ok (data, data.length) ∧
        Frame (file.getD []) F1 O.toNat data.length) ∧
    (∀ len ch : List Char, memset_write_data sys off len ch file = .ok F1 →
      ∃ n : Int, get_long len = .ok n ∧ 1 ≤ n ∧ Frame (file.getD []) F1 O.toNat n.toNat) := by
  constructor
  · intro arg h
    by_cases hne : cAt arg 0 = Char.ofNat 0
    · unfold write_data at h
      rw [if_pos hne] at h
      exact absurd h (by simp)
    · cases hd : hex_to_uchar arg with
      | error e =>
        unfold write_data at h
        simp only [hne, if_false, hd] at h
        exact absurd h (by simp)
      | ok r =>
        obtain ⟨data, nb⟩ := r
        obtain ⟨_, hnb, _⟩ := hex_to_uchar_ok hd
        subst hnb
        rw [write_data_eq sys off file hne hd] at h
        have hs := write_to_file_splice hoff h0 hle (by omega) (by simp) h
        rw [bytesWritten_length_data] at hs
        refine ⟨data, rfl, ?_⟩
        rw [hs]
        exact frame_of_splice _ _ _ (by omega)
  · intro len ch h
    cases hl : get_long len with
    | error e =>
      unfold memset_write_data at h
      simp only [hl] at h
      exact absurd h (by simp)
    | ok n =>
      by_cases hn : n < 1
      · unfold memset_write_data at h
        simp only [hl, hn, if_true] at h
        exact absurd h (by simp)
      · cases hv : get_uchar ch with
        | error e =>
          unfold memset_write_data at h
          simp only [hl, hn, if_false, hv] at h
          exact absurd h (by simp)
        | ok V =>
          rw [memset_write_data_eq sys off file hl (by omega) hv] at h
          have hs := write_to_file_splice hoff h0 hle (by omega) (by simp) h
          refine ⟨n, rfl, by omega, ?_⟩
          have hlen : (bytesWritten [] (some V) n).length = n.toNat := by
            simp [bytesWritten]
          rw [hs, ← hlen]
          exact frame_of_splice _ _ _ (by omega)

/-- C12, witness: `AABB` written at offset 1 of a four-byte file, and three bytes `A` set at
offset 2 of the same file, on a system that accepts the bytes. -/
theorem write_frame_witness :
    (∃ data, hex_to_uchar "AABB".toList = .ok (data, data.length) ∧
        Frame [1, 2, 3, 4] [1, 170, 187, 4] 1 data.length) ∧
    (∃ n : Int, get_long "3".toList = .ok n ∧ 1 ≤ n ∧
        Frame [1, 2, 3, 4] [1, 2, 65, 65, 65] 2 n.toNat) :=
  ⟨(write_frame (sysRoom 2) "1".toList (some [1, 2, 3, 4]) 1 [1, 170, 187, 4] (by decide)
      (by decide) (by decide)).1 "AABB".toList (by decide),
    (write_frame (sysRoom 3) "2".toList (some [1, 2, 3, 4]) 2 [1, 2, 65, 65, 65] (by decide)
      (by decide) (by decide)).2 "3".toList "A".toList (by decide)⟩

/-- Append for every file size whose conversion to `int` is not `-1`, on a system that opens
the file and accepts the bytes: a write of the decoded bytes `B` with the offset word `append`
(any letter case) yields the old content followed by `B`. -/
theorem write_data_append_of_seek (sys : Sys) (off arg : List Char)
    (file : Option (List Nat)) (B : List Nat) (hopen : sys.canOpen = true)
    (hroom : B.length ≤ sys.room) (hw : isWord "append" off)
    (hne : cAt arg 0 ≠ Char.ofNat 0) (hd : hex_to_uchar arg = .ok (B, B.length))
    (hsk : toInt ((file.getD []).length : Int) ≠ -1) :
    write_data sys off arg file = .ok (file.getD [] ++ B) := by
  rw [write_data_eq sys off file hne hd]
  exact write_to_file_append B hopen hroom hw hsk

/-- C13, failing input: a file of `2^32 - 1` bytes and the write `append AB`, on a system
that opens the file and accepts the byte. The data decodes to the one byte `AB`, the seek to
the end of the file succeeds and returns 4294967295, and `write_data` reports a failed seek:
nothing is appended. -/
theorem write_data_append_4GiB :
    isWord "append" "append".toList ∧
    hex_to_uchar "AB".toList = .ok ([0xAB], 1) ∧
    (List.replicate 4294967295 0).length = 4294967295 ∧
    lseek 4294967295 0 .SEEK_END = 4294967295 ∧
    write_data (sysRoom 1) "append".toList "AB".toList (some (List.replicate 4294967295 0))
      = .error .lseekFailed := by
  refine ⟨by decide, by decide, List.length_replicate _ _, by decide, ?_⟩
  have hd : hex_to_uchar "AB".toList = .ok ([0xAB], 1) := by decide
  rw [write_data_eq _ _ _ (by decide) hd]
  exact write_to_file_append_seek_error _ _ _ rfl (by decide) (by decide) (by decide)
    (by rw [List.length_replicate]; decide)

/-- When `write_to_file` reports a failed seek: exactly when the file has been opened and the
position returned by `lseek`, converted to `int`, is `-1`. -/
theorem write_to_file_lseekFailed_iff (sys : Sys) (file : Option (List Nat))
    (data : List Nat) (byte : Option Nat) (off : List Char) (num : Int) (hnum : 0 ≤ num)
    (hd : byte = none → num.toNat ≤ data.length) :
    write_to_file sys file data byte off num = .error .lseekFailed ↔
      sys.canOpen = true ∧ ∃ p, seekOf (file.getD []) off = .ok p ∧ toInt p = -1 := by
  rw [write_to_file_eq _ _ _ _ _ _ hnum hd]
  by_cases hopen : sys.canOpen = false
  · rw [if_pos hopen]
    constructor
    · intro h
      exact absurd (Except.error.inj h) (by decide)
    · rintro ⟨ho, _⟩
      rw [ho] at hopen
      exact absurd hopen (by decide)
  have ho : sys.canOpen = true := by simpa using hopen
  rw [if_neg hopen]
  cases hs : seekOf (file.getD []) off with
  | error e =>
    simp only []
    constructor
    · intro h
      have he := Except.error.inj h
      unfold seekOf at hs
      split_ifs at hs
      cases hg : get_long off with
      | error e1 =>
        rw [hg] at hs
        have hk := get_long_error_kind off e1 hg
        rw [Except.error.inj hs, he] at hk
        rcases hk with hk | hk
        · exact absurd hk (by decide)
        · exact absurd hk (by decide)
      | ok v =>
        rw [hg] at hs
        exact absurd hs (by simp)
    · rintro ⟨_, p, hp, _⟩
      exact absurd hp (by simp)
  | ok p =>
    simp only []
    constructor
    · intro h
      by_cases hsk : toInt p = -1
      · exact ⟨ho, p, rfl, hsk⟩
      · rw [if_neg hsk] at h
        split_ifs at h
        exact absurd (Except.error.inj h) (by decide)
    · rintro ⟨_, q, hq, hsk⟩
      rw [← Except.ok.inj hq] at hsk
      rw [if_pos hsk]

/-- C16, failing input: the offset argument `4294967295` on an absent file (and `append` on a
file of `2^32 - 1` bytes), on a system that opens the file and accepts the byte. The offset
parses to `O = 4294967295 >= 0`, `lseek` succeeds and returns position `O` (it does not return
`-1`), and `write_to_file` reports a failed seek instead of writing. -/
theorem write_to_file_seek_misreported :
    get_long "4294967295".toList = .ok 4294967295 ∧
    lseek 0 4294967295 .SEEK_SET = 4294967295 ∧
    write_to_file (sysRoom 1) none [0xAB] none "4294967295".toList 1 = .error .lseekFailed ∧
    lseek 4294967295 0 .SEEK_END = 4294967295 ∧
    write_to_file (sysRoom 1) (some (List.replicate 4294967295 0)) [0xAB] none
      "APPEND".toList 1 = .error .lseekFailed := by
  refine ⟨by decide, by decide, by decide, by decide, ?_⟩
  exact write_to_file_append_seek_error _ _ _ rfl (by decide) (by decide) (by decide)
    (by rw [List.length_replicate]; decide)

theorem write_to_file_run_events_closed (sys : Sys) (name : List Char)
    (file : Option (List Nat)) (data : List Nat) (byte : Option Nat) (off : List Char)
    (num : Int) {p : Int} (hopen : sys.canOpen = true)
    (hseek : seekOf (file.getD []) off = .ok p) :
    (write_to_file_run sys name file data byte off num).events = [.open, .close] := by
  have hno : ¬ sys.canOpen = false := by simp [hopen]
  unfold write_to_file_run
  rw [if_neg hno]
  simp only []
  have hs : (if strcasecmp off "append".toList = 0 then
        (Except.ok (lseek (file.getD []).length 0 .SEEK_END) : Except Err Int)
      else
        match get_long off with
        | .error e => .error e
        | .ok o => .ok (lseek (file.getD []).length o .SEEK_SET)) = seekOf (file.getD []) off := rfl
  rw [hs, hseek]
  simp only []
  by_cases hsk : toInt p = -1
  · rw [if_pos hsk]
  · rw [if_neg hsk]
    split_ifs
    · rfl
    · rfl

theorem write_to_file_not_opened (sys : Sys) (file : Option (List Nat)) (data : List Nat)
    (byte : Option Nat) (off : List Char) (num : Int) (hopen : sys.canOpen = false) :
    write_to_file sys file data byte off num = .error .openFailed := by
  unfold write_to_file
  rw [if_pos hopen]

theorem write_to_file_run_not_opened (sys : Sys) (name : List Char)
    (file : Option (List Nat)) (data : List Nat) (byte : Option Nat) (off : List Char)
    (num : Int) (hopen : sys.canOpen = false) :
    write_to_file_run sys name file data byte off num = ⟨[], [], .error .openFailed⟩ := by
  unfold write_to_file_run
  rw [if_pos hopen]

theorem memset_write_data_run_eq {len ch : List Char} {C : Int} {V : Nat} (sys : Sys)
    (off name : List Char) (file : Option (List Nat)) (hl : get_long len = .ok C)
    (hC : 1 ≤ C) (hv : get_uchar ch = .ok V) :
    memset_write_data_run sys off len ch name file
      = write_to_file_run sys name file [] (some V) off C := by
  have hnot : ¬ C < 1 := by omega
  unfold memset_write_data_run
  simp only [hl, hnot, if_false, hv]

/-- C14, counterexample: the count 5 and the byte `A` at offset 0 of an absent file that the
system does not let the program create. The count parses to `5 >= 1`, the byte to 65, the
offset to 0, and `memset_write_data` does not succeed: it exits with the diagnostic of `open`
and no file of five bytes exists. Likewise, on a system that creates the file and accepts
only four bytes, it exits with the diagnostic of `write`. -/
theorem memset_absent_file_not_created :
    get_long "5".toList = .ok 5 ∧
    get_uchar "A".toList = .ok 65 ∧
    get_long "0".toList = .ok 0 ∧
    memset_write_data sysNoOpen "0".toList "5".toList "A".toList none = .error .openFailed ∧
    (memset_write_data_run sysNoOpen "0".toList "5".toList "A".toList "f".toList none).events
      = [] ∧
    memset_write_data (sysRoom 4) "0".toList "5".toList "A".toList none
      = .error .writeFailed := by
  decide

/-- C14 (amended): for every length argument that parses to a count `C >= 1` and every byte
argument that parses to `V`, `memset_write_data` with an offset argument that parses to 0 (or
is the word `append`) on an absent or empty file, when the system opens or creates the file
and accepts `C` bytes, succeeds and produces the file of `C` bytes `V`, which is the file that
writing the explicit sequence of `C` copies of `V` at that offset produces; when the system
does not open or create the file it exits with the diagnostic of `open` and no handle
operation, and when the system opens the file and accepts fewer than `C` bytes it exits with
the diagnostic of `write` after closing the handle. A length argument that parses to a value
`< 1` is rejected before any handle operation: the file is neither opened nor created. -/
theorem memset_fresh_file (sys : Sys) (off len ch : List Char) (file : Option (List Nat))
    (C : Int) (hlen : get_long len = .ok C) :
    (∀ V : Nat, (file = none ∨ file = some []) →
      (get_long off = .ok 0 ∨ isWord "append" off) → 1 ≤ C → get_uchar ch = .ok V →
        (sys.canOpen = true → C.toNat ≤ sys.room →
          memset_write_data sys off len ch file = .ok (List.replicate C.toNat V) ∧
          write_to_file sys file (List.replicate C.toNat V) none off C
            = .ok (List.replicate C.toNat V) ∧
          V ≤ 255) ∧
        (sys.canOpen = false → ∀ name : List Char,
          memset_write_data sys off len ch file = .error .openFailed ∧
          (memset_write_data_run sys off len ch name file).events = []) ∧
        (sys.canOpen = true → sys.room < C.toNat → ∀ name : List Char,
          memset_write_data sys off len ch file = .error .writeFailed ∧
          (memset_write_data_run sys off len ch name file).events = [.open, .close])) ∧
    (C < 1 → ∀ name : List Char,
      memset_write_data sys off len ch file = .error .lengthTooSmall ∧
      (memset_write_data_run sys off len ch name file).events = [] ∧
      (memset_write_data_run sys off len ch name file).result = .error .lengthTooSmall) := by
  constructor
  · intro V hfile hoff hC hV
    have hF : file.getD [] = [] := by
      rcases hfile with rfl | rfl
      · rfl
      · rfl
    have hseek : seekOf (file.getD []) off = .ok 0 := by
      rcases hoff with h | h
      · exact seekOf_numeric h (le_refl 0)
      · rw [seekOf_append h, hF]
        rfl
    have h0 : toInt 0 ≠ -1 := by decide
    refine ⟨?_, ?_, ?_⟩
    · intro hopen hroom
      have hw : ∀ (data : List Nat) (byte : Option Nat),
          (byte = none → C.toNat ≤ data.length) →
          bytesWritten data byte C = List.replicate C.toNat V →
          write_to_file sys file data byte off C = .ok (List.replicate C.toNat V) := by
        intro data byte hd hb
        rw [write_to_file_eq _ _ _ _ _ _ (by omega) hd, hseek]
        simp only [hopen, Bool.true_eq_false, h0, if_false, hroom, if_true, hb, hF,
          Int.toNat_zero]
        have hc := sysWrite_within (F := []) (O := 0) (List.replicate C.toNat V)
          (Nat.le_refl 0)
        rw [hc]
        simp
      refine ⟨?_, hw _ _ (by simp) (by simp [bytesWritten]), get_uchar_le hV⟩
      rw [memset_write_data_eq sys off file hlen hC hV]
      exact hw _ _ (by simp) rfl
    · intro hopen name
      rw [memset_write_data_eq sys off file hlen hC hV,
        memset_write_data_run_eq sys off name file hlen hC hV,
        write_to_file_not_opened _ _ _ _ _ _ hopen,
        write_to_file_run_not_opened _ _ _ _ _ _ _ hopen]
      exact ⟨rfl, rfl⟩
    · intro hopen hroom name
      have hnr : ¬ C.toNat ≤ sys.room := by omega
      refine ⟨?_, ?_⟩
      · rw [memset_write_data_eq sys off file hlen hC hV,
          write_to_file_eq _ _ _ _ _ _ (by omega) (by simp), hseek]
        simp only [hopen, Bool.true_eq_false, h0, if_false, hnr]
      · rw [memset_write_data_run_eq sys off name file hlen hC hV]
        exact write_to_file_run_events_closed sys name file [] (some V) off C hopen hseek
  · intro hC name
    unfold memset_write_data memset_write_data_run
    simp only [hlen, hC, if_true, and_self]

/-- C14, witness: five bytes `A` set at offset 0 of an absent file on a system that creates
the file and accepts five bytes, on one that does not create the file, on one that accepts
four bytes, and the length `0`. -/
theorem memset_fresh_file_witness :
    (memset_write_data (sysRoom 5) "0".toList "5".toList "A".toList none
        = .ok (List.replicate 5 65) ∧
      write_to_file (sysRoom 5) none (List.replicate 5 65) none "0".toList 5
        = .ok (List.replicate 5 65) ∧
      65 ≤ 255) ∧
    (memset_write_data sysNoOpen "0".toList "5".toList "A".toList none = .error .openFailed ∧
      (memset_write_data_run sysNoOpen "0".toList "5".toList "A".toList "f".toList none).events
        = []) ∧
    (memset_write_data (sysRoom 4) "0".toList "5".toList "A".toList none
        = .error .writeFailed ∧
      (memset_write_data_run (sysRoom 4) "0".toList "5".toList "A".toList "f".toList
        none).events = [.open, .close]) ∧
    (memset_write_data (sysRoom 5) "0".toList "0".toList "A".toList none
        = .error .lengthTooSmall ∧
      (memset_write_data_run (sysRoom 5) "0".toList "0".toList "A".toList "f".toList
        none).events = [] ∧
      (memset_write_data_run (sysRoom 5) "0".toList "0".toList "A".toList "f".toList
        none).result = .error .lengthTooSmall) :=
  ⟨((memset_fresh_file (sysRoom 5) "0".toList "5".toList "A".toList none 5 (by decide)).1 65
      (Or.inl rfl) (Or.inl (by decide)) (by decide) (by decide)).1 rfl (by decide),
    ((memset_fresh_file sysNoOpen "0".toList "5".toList "A".toList none 5 (by decide)).1 65
      (Or.inl rfl) (Or.inl (by decide)) (by decide) (by decide)).2.1 rfl "f".toList,
    ((memset_fresh_file (sysRoom 4) "0".toList "5".toList "A".toList none 5 (by decide)).1 65
      (Or.inl rfl) (Or.inl (by decide)) (by decide) (by decide)).2.2 rfl (by decide)
      "f".toList,
    (memset_fresh_file (sysRoom 5) "0".toList "0".toList "A".toList none 0 (by decide)).2
      (by decide) "f".toList⟩

/-! ## Command dispatcher (C15) -/

theorem tolower_eq_zero {c : Char} (h : tolower c = 0) : c = Char.ofNat 0 := by
  have hn : c.toNat = 0 := by
    unfold tolower at h
    split_ifs at h
    omega
  rw [← Char.ofNat_toNat c, hn]

theorem strcasecmp_eq_zero : ∀ a b : List Char, Char.ofNat 0 ∉ a → Char.ofNat 0 ∉ b →
    strcasecmp a b = 0 → a.map tolower = b.map tolower
  | [], [], _, _, _ => rfl
  | [], y :: _, _, hb, h => by
    simp only [strcasecmp] at h
    have hy : tolower y = 0 := by omega
    exact absurd (tolower_eq_zero hy) (fun e => hb (by simp [e]))
  | x :: _, [], ha, _, h => by
    simp only [strcasecmp] at h
    have hx : tolower x = 0 := by omega
    exact absurd (tolower_eq_zero hx) (fun e => ha (by simp [e]))
  | x :: a, y :: b, ha, hb, h => by
    rw [strcasecmp] at h
    split_ifs at h with heq
    · have := strcasecmp_eq_zero a b (fun hm => ha (by simp [hm])) (fun hm => hb (by simp [hm])) h
      simp [heq, this]
    · omega

theorem isCommand_of_is_cmd {cmd : List Char} (short long : String)
    (hs : Char.ofNat 0 ∉ short.toList) (hl : Char.ofNat 0 ∉ long.toList)
    (hc : Char.ofNat 0 ∉ cmd) (h : is_cmd cmd short.toList long.toList = true) :
    isCommand short long cmd := by
  simp only [is_cmd, Bool.or_eq_true, beq_iff_eq] at h
  rcases h with h | h
  · exact Or.inl (strcasecmp_eq_zero _ _ hc hs h)
  · exact Or.inr (strcasecmp_eq_zero _ _ hc hl h)

theorem main_usage (sys : Sys) (self : List Char) (args : List (List Char))
    (fs : List Char → Option (List Nat)) (hwf : ∀ a ∈ args, Char.ofNat 0 ∉ a)
    (h : ¬ acceptedShape args) :
    main sys self args fs = ⟨1, print_usage self, none, []⟩ := by
  match args, hwf, h with
  | [], _, _ => rfl
  | [a1], _, h =>
    have h1 : a1 ≠ "--help".toList := by
      intro e
      exact h (Or.inl (by rw [e]))
    simp only [main, h1, if_false]
  | [cmd, f], hwf, h =>
    have hc : is_cmd cmd "r".toList "read".toList = false := by
      by_contra hc
      exact h (Or.inr (Or.inl ⟨cmd, f, rfl,
        isCommand_of_is_cmd "r" "read" (by decide) (by decide) (hwf cmd (by simp))
          (by simpa using hc)⟩))
    simp only [main, hc, if_false, Bool.false_eq_true]
  | [_, _, _], _, _ => rfl
  | [cmd, a, b, f], hwf, h =>
    have hr : is_cmd cmd "r".toList "read".toList = false := by
      by_contra hc
      exact h (Or.inr (Or.inr (Or.inl ⟨cmd, a, b, f, rfl, Or.inl
        (isCommand_of_is_cmd "r" "read" (by decide) (by decide) (hwf cmd (by simp))
          (by simpa using hc))⟩)))
    have hw : is_cmd cmd "w".toList "write".toList = false := by
      by_contra hc
      exact h (Or.inr (Or.inr (Or.inl ⟨cmd, a, b, f, rfl, Or.inr
        (isCommand_of_is_cmd "w" "write" (by decide) (by decide) (hwf cmd (by simp))
          (by simpa using hc))⟩)))
    simp only [main, hr, hw, if_false, Bool.false_eq_true]
  | [cmd, a, b, c, f], hwf, h =>
    have hm : is_cmd cmd "m".toList "memset".toList = false := by
      by_contra hc
      exact h (Or.inr (Or.inr (Or.inr ⟨cmd, a, b, c, f, rfl,
        isCommand_of_is_cmd "m" "memset" (by decide) (by decide) (hwf cmd (by simp))
          (by simpa using hc)⟩)))
    simp only [main, hm, if_false, Bool.false_eq_true]
  | _ :: _ :: _ :: _ :: _ :: _ :: _, _, _ => rfl

theorem not_acceptedShape_nil : ¬ acceptedShape [] := by
  simp [acceptedShape]

/-- C15, counterexample: the program called without arguments matches none of the accepted
shapes; it exits with status 1 and performs no file operation, but the usage text is on
standard output and nothing is written to standard error. -/
theorem main_usage_on_stdout :
    ¬ acceptedShape [] ∧
    (main (sysRoom 0) "prog".toList [] noFiles).exit = 1 ∧
    (main (sysRoom 0) "prog".toList [] noFiles).events = [] ∧
    (main (sysRoom 0) "prog".toList [] noFiles).stderr = none ∧
    (main (sysRoom 0) "prog".toList [] noFiles).stdout = print_usage "prog".toList ∧
    print_usage "prog".toList ≠ [] :=
  ⟨not_acceptedShape_nil, rfl, rfl, rfl, rfl, by decide⟩

/-- C15 (amended): for every argument vector (of C strings) that matches none of the accepted
shapes (`--help` alone; `r`/`read` followed by 1 or by 3 arguments; `w`/`write` followed by 3
arguments; `m`/`memset` followed by 4 arguments; command names compared case-insensitively
against exactly the one-letter or the full-word alias), the program performs no file
operation, prints the usage text to standard output, writes nothing to standard error and
exits with status 1; and `--help` as the only argument prints the usage plus the extended
help to standard output and exits with status 0. -/
theorem main_dispatch (sys : Sys) (self : List Char) (args : List (List Char))
    (fs : List Char → Option (List Nat)) :
    ((∀ a ∈ args, Char.ofNat 0 ∉ a) → ¬ acceptedShape args →
      main sys self args fs = ⟨1, print_usage self, none, []⟩) ∧
    main sys self ["--help".toList] fs = ⟨0, show_help self, none, []⟩ ∧
    (∃ ext, ext ≠ [] ∧ show_help self = print_usage self ++ ext) :=
  ⟨main_usage sys self args fs, rfl, ⟨_, by decide, rfl⟩⟩

/-- C15, witness: the arguments `x 1 2` (three arguments, no command of that shape). -/
theorem main_dispatch_witness :
    main (sysRoom 0) "prog".toList ["x".toList, "1".toList, "2".toList] noFiles
      = ⟨1, print_usage "prog".toList, none, []⟩ :=
  (main_dispatch (sysRoom 0) "prog".toList ["x".toList, "1".toList, "2".toList] noFiles).1
    (by decide) (by simp [acceptedShape])

/-! ## File handles (C17) -/

theorem read_data_run_result (arg_offset arg_length : List Char) (file : Option (List Nat)) :
    read_data arg_offset arg_length file =
      match (read_data_run arg_offset arg_length file).result with
      | .ok _ => .ok (read_data_run arg_offset arg_length file).stdout
      | .error e => .error e := by
  cases file with
  | none => rfl
  | some content =>
    by_cases h1 : strcasecmp arg_offset "append".toList = 0
    · simp only [read_data, read_data_run, h1, if_true]
    · cases hg : get_long arg_offset with
      | error e => simp only [read_data, read_data_run, h1, if_false, hg]
      | ok offset =>
        by_cases h2 : offset ≥ (content.length : Int)
        · simp only [read_data, read_data_run, h1, if_false, hg, h2, if_true]
        · by_cases h3 : fseek offset = -1
          · simp only [read_data, read_data_run, h1, if_false, hg, h2, h3, if_true]
          · by_cases h4 : strcasecmp arg_length "all".toList = 0
            · simp only [read_data, read_data_run, h1, if_false, hg, h2, h3, h4, if_true]
            · cases hl : get_long arg_length with
              | error e => simp only [read_data, read_data_run, h1, if_false, hg, h2, h3, h4, hl]
              | ok len =>
                by_cases h5 : len < 1
                · simp only [read_data, read_data_run, h1, if_false, hg, h2, h3, h4, hl, h5,
                    if_true]
                · simp only [read_data, read_data_run, h1, if_false, hg, h2, h3, h4, hl, h5]

theorem write_to_file_run_result (sys : Sys) (name : List Char) (file : Option (List Nat))
    (data : List Nat) (byte : Option Nat) (off : List Char) (num : Int) :
    (write_to_file_run sys name file data byte off num).result
      = write_to_file sys file data byte off num := by
  unfold write_to_file write_to_file_run
  by_cases hopen : sys.canOpen = false
  · rw [if_pos hopen, if_pos hopen]
  · rw [if_neg hopen, if_neg hopen]
    simp only []
    split
    · rfl
    · split_ifs <;> rfl

theorem write_data_run_result (sys : Sys) (off arg name : List Char)
    (file : Option (List Nat)) :
    (write_data_run sys off arg name file).result = write_data sys off arg file := by
  unfold write_data write_data_run
  split_ifs
  · rfl
  · cases hex_to_uchar arg with
    | error e => rfl
    | ok r => exact write_to_file_run_result _ _ _ _ _ _ _

theorem memset_write_data_run_result (sys : Sys) (off len ch name : List Char)
    (file : Option (List Nat)) :
    (memset_write_data_run sys off len ch name file).result
      = memset_write_data sys off len ch file := by
  unfold memset_write_data memset_write_data_run
  cases get_long len with
  | error e => rfl
  | ok n =>
    simp only []
    split_ifs
    · rfl
    · cases get_uchar ch with
      | error e => rfl
      | ok c => exact write_to_file_run_result _ _ _ _ _ _ _

/-- The handle of `read_data` is left open at the exit only on the exits inside `get_long`
(an offset or length argument that is no number, or out of range). -/
theorem read_data_run_open (arg_offset arg_length : List Char) (file : Option (List Nat))
    (h : openAtExit (read_data_run arg_offset arg_length file).events = true) :
    (read_data_run arg_offset arg_length file).events = [.fopen] ∧
    ((read_data_run arg_offset arg_length file).result = .error .notANumber ∨
      (read_data_run arg_offset arg_length file).result = .error .strtolErrno) := by
  have hclosed : openAtExit [Event.fopen, Event.fclose] ≠ true := by decide
  have hnone : openAtExit [] ≠ true := by decide
  have hkind : ∀ e : Err, e = .notANumber ∨ e = .strtolErrno →
      ((Except.error e : Except Err Unit) = .error .notANumber ∨
        (Except.error e : Except Err Unit) = .error .strtolErrno) := by
    rintro e (rfl | rfl)
    · exact Or.inl rfl
    · exact Or.inr rfl
  cases file with
  | none => exact absurd h hnone
  | some content =>
    by_cases h1 : strcasecmp arg_offset "append".toList = 0
    · simp only [read_data_run, h1, if_true] at h
      exact absurd h hclosed
    · cases hg : get_long arg_offset with
      | error e =>
        simp only [read_data_run, h1, if_false, hg]
        exact ⟨trivial, hkind e (get_long_error_kind _ _ hg)⟩
      | ok offset =>
        by_cases h2 : offset ≥ (content.length : Int)
        · simp only [read_data_run, h1, if_false, hg, h2, if_true] at h
          exact absurd h hclosed
        · by_cases h3 : fseek offset = -1
          · simp only [read_data_run, h1, if_false, hg, h2, h3, if_true] at h
            exact absurd h hclosed
          · by_cases h4 : strcasecmp arg_length "all".toList = 0
            · simp only [read_data_run, h1, if_false, hg, h2, h3, h4, if_true] at h
              exact absurd h hclosed
            · cases hl : get_long arg_length with
              | error e =>
                simp only [read_data_run, h1, if_false, hg, h2, h3, h4, hl]
                exact ⟨trivial, hkind e (get_long_error_kind _ _ hl)⟩
              | ok len =>
                by_cases h5 : len < 1
                · simp only [read_data_run, h1, if_false, hg, h2, h3, h4, hl, h5,
                    if_true] at h
                  exact absurd h hclosed
                · simp only [read_data_run, h1, if_false, hg, h2, h3, h4, hl, h5] at h
                  exact absurd h hclosed

/-- C17, failing input: `read_data` with the offset argument `zz` (and with the length
argument `zz`) on an existing file, `write_data` and `memset_write_data` with the offset
argument `zz` on a system that opens the file. The file is opened, `get_long` exits in
`xstrtol` with the diagnostic "cannot be interpreted as number", and no `fclose`/`close` has
been called: the handle is open when the process exits. -/
theorem handle_open_at_exit :
    ((read_data_run "zz".toList "all".toList (some [1, 2, 3])).events = [.fopen] ∧
      (read_data_run "zz".toList "all".toList (some [1, 2, 3])).result = .error .notANumber ∧
      openAtExit (read_data_run "zz".toList "all".toList (some [1, 2, 3])).events = true) ∧
    ((read_data_run "0".toList "zz".toList (some [1, 2, 3])).events = [.fopen] ∧
      (read_data_run "0".toList "zz".toList (some [1, 2, 3])).result = .error .notANumber ∧
      openAtExit (read_data_run "0".toList "zz".toList (some [1, 2, 3])).events = true) ∧
    ((write_data_run (sysRoom 1) "zz".toList "AB".toList "f".toList (some [1, 2, 3])).events
        = [.open] ∧
      (write_data_run (sysRoom 1) "zz".toList "AB".toList "f".toList (some [1, 2, 3])).result
        = .error .notANumber ∧
      openAtExit
        (write_data_run (sysRoom 1) "zz".toList "AB".toList "f".toList (some [1, 2, 3])).events
        = true) ∧
    ((memset_write_data_run (sysRoom 1) "zz".toList "1".toList "A".toList "f".toList
        none).events = [.open] ∧
      (memset_write_data_run (sysRoom 1) "zz".toList "1".toList "A".toList "f".toList
        none).result = .error .notANumber ∧
      openAtExit (memset_write_data_run (sysRoom 1) "zz".toList "1".toList "A".toList
        "f".toList none).events = true) := by
  decide

/-- The handle of `write_to_file` is left open at the exit only on the exit inside `get_long`
(an offset argument that is no number, or out of range). -/
theorem write_to_file_run_open (sys : Sys) (name : List Char) (file : Option (List Nat))
    (data : List Nat) (byte : Option Nat) (off : List Char) (num : Int)
    (h : openAtExit (write_to_file_run sys name file data byte off num).events = true) :
    (write_to_file_run sys name file data byte off num).events = [.open] ∧
    ((write_to_file_run sys name file data byte off num).result = .error .notANumber ∨
      (write_to_file_run sys name file data byte off num).result = .error .strtolErrno) := by
  have hclosed : openAtExit [Event.open, Event.close] ≠ true := by decide
  have hnone : openAtExit [] ≠ true := by decide
  unfold write_to_file_run at h ⊢
  by_cases hopen : sys.canOpen = false
  · rw [if_pos hopen] at h
    exact absurd h hnone
  rw [if_neg hopen] at h ⊢
  simp only [] at h ⊢
  by_cases h1 : strcasecmp off "append".toList = 0
  · simp only [h1, if_true] at h
    split_ifs at h <;> exact absurd h hclosed
  · cases hg : get_long off with
    | error e =>
      simp only [h1, if_false]
      refine ⟨trivial, ?_⟩
      rcases get_long_error_kind _ _ hg with rfl | rfl
      · exact Or.inl rfl
      · exact Or.inr rfl
    | ok o =>
      simp only [h1, if_false, hg] at h
      split_ifs at h <;> exact absurd h hclosed

/-! ## Short reads (C18) -/

theorem read_loop_short (m L : Int) (hm : m ≤ INT_MAX) (hL : m < L) (bs : List Nat) :
    ∀ (i : Int) (k : Nat), bs ≠ [] → 0 ≤ i → i % 16 = (k : Int) → i + bs.length = m →
      read_loop L i bs = read_loop m i bs ++ (if m % 16 = 0 then ['\n'] else []) := by
  induction bs with
  | nil =>
    intro i k h
    exact absurd rfl h
  | cons c bs1 ih =>
    intro i k _ h0 hk hlen
    simp only [List.length_cons, Nat.cast_add, Nat.cast_one] at hlen
    rw [read_loop_step_small L c bs1 i k h0 hk (by omega) (by omega),
      read_loop_step_small m c bs1 i k h0 hk (by omega) (by omega)]
    simp only [List.append_assoc]
    congr 1
    have hLne : ¬ (i + 1 = L) := by omega
    by_cases h1 : bs1 = []
    · subst h1
      have hlen1 : i + 1 = m := by
        simpa using hlen
      rw [read_loop_done m (i + 1) [] (by omega)]
      have hr : read_loop L (i + 1) [] = ['\n'] := by
        unfold read_loop
        simp only [show i + 1 < L by omega, if_true]
      rw [hr, if_pos (Or.inl hlen1)]
      by_cases h16 : m % 16 = 0
      · have hk15 : k = 15 := by omega
        rw [if_pos h16, if_pos (Or.inr hk15)]
        rfl
      · have hk15 : ¬ (i + 1 = L ∨ k = 15) := by omega
        rw [if_neg h16, if_neg hk15]
        rfl
    · have hpos : 0 < bs1.length := List.length_pos.2 h1
      have hmne : ¬ (i + 1 = m) := by omega
      have hk1 : (i + 1) % 16 = ((((i + 1) % 16).toNat : Nat) : Int) := by omega
      rw [ih (i + 1) ((i + 1) % 16).toNat h1 (by omega) hk1 (by omega)]
      by_cases hk15 : k = 15
      · rw [if_pos (Or.inr hk15), if_pos (Or.inr hk15)]
      · have hn1 : ¬ (i + 1 = L ∨ k = 15) := fun h => h.elim hLne hk15
        have hn2 : ¬ (i + 1 = m ∨ k = 15) := fun h => h.elim hmne hk15
        rw [if_neg hn1, if_neg hn2]

/-- The text of a short read, for every file with at most `INT_MAX` bytes after the offset:
when the requested length `L` exceeds the `N - O` available bytes, `read_data` prints the text
of the read to the end of the file (`all`), followed by one more newline when `N - O` is a
multiple of 16. -/
theorem read_data_short (F : List Nat) (off len w : List Char) (O L : Int)
    (hoff : get_long off = .ok O) (h0 : 0 ≤ O) (hlt : O < F.length)
    (hL : get_long len = .ok L) (hgt : L > F.length - O) (hmax : F.length - O ≤ INT_MAX)
    (hw : isWord "all" w) :
    ∃ text, read_data off w (some F) = .ok text ∧
      read_data off len (some F)
        = .ok (text ++ (if ((F.length : Int) - O) % 16 = 0 then ['\n'] else [])) := by
  have hwl : strcasecmp len "all".toList ≠ 0 := get_long_ok_not_sentinel hL
  have hnot : ¬ L < 1 := by omega
  have hdl : (F.drop O.toNat).length = F.length - O.toNat := List.length_drop _ _
  have hne : F.drop O.toNat ≠ [] := by
    intro h
    rw [h] at hdl
    simp only [List.length_nil] at hdl
    omega
  refine ⟨read_loop ((F.length : Int) - O) 0 (F.drop O.toNat), ?_, ?_⟩
  · rw [read_data_seek w hoff h0 hlt, if_pos (strcasecmp_of_isWord hw)]
  · rw [read_data_seek len hoff h0 hlt, if_neg hwl, hL]
    simp only [hnot, if_false]
    rw [read_loop_short _ L hmax (by omega) _ 0 0 hne (le_refl 0) (by decide)
      (by rw [hdl]; omega)]

/-- C18, failing input: a file of 16 bytes, offset `0`, requested length `17` (`N - O = 16`
is a multiple of 16, `L > N - O`). The short read prints the line of 16 groups followed by
two newlines, the read of `all` prints it followed by one: the two outputs differ, the short
read ends with an empty line. -/
theorem read_data_short_extra_newline :
    read_data "0".toList "17".toList (some (List.range 16))
      = .ok " 00 01 02 03  04 05 06 07  08 09 0A 0B  0C 0D 0E 0F\n\n".toList ∧
    read_data "0".toList "all".toList (some (List.range 16))
      = .ok " 00 01 02 03  04 05 06 07  08 09 0A 0B  0C 0D 0E 0F\n".toList ∧
    read_data "0".toList "17".toList (some (List.range 16))
      ≠ read_data "0".toList "all".toList (some (List.range 16)) := by
  decide

/-! ## The hex dump read back by the decoder (C19) -/

theorem hexDigitUpper_digit : ∀ d, d < 16 →
    isspace (hexDigitUpper d) = false ∧ isxdigit (hexDigitUpper d) = true ∧
      hexVal (hexDigitUpper d) = d := by
  decide

theorem hexDigitsOf_append (a b : List Char) :
    hexDigitsOf (a ++ b) = hexDigitsOf a ++ hexDigitsOf b := by
  simp [hexDigitsOf]

theorem hexDigitsOf_fmt02X (c : Nat) :
    hexDigitsOf (fmt02X c) = [c % 256 / 16, c % 256 % 16] := by
  obtain ⟨h1, _, h3⟩ := hexDigitUpper_digit (c % 256 / 16) (by omega)
  obtain ⟨l1, _, l3⟩ := hexDigitUpper_digit (c % 256 % 16) (by omega)
  simp [hexDigitsOf, fmt02X, List.filter_cons, h1, l1, h3, l3]

theorem hexDigitsOf_gap {sp nl : List Char} (hsp : sp = [] ∨ sp = [' '])
    (hnl : nl = [] ∨ nl = ['\n']) : hexDigitsOf (sp ++ nl) = [] := by
  have h1 : isspace ' ' = true := by decide
  have h2 : isspace '\n' = true := by decide
  rcases hsp with rfl | rfl <;> rcases hnl with rfl | rfl <;>
    simp [hexDigitsOf, List.filter_cons, h1, h2]

theorem decodeRef_read_loop (len : Int) (fp : List Nat) :
    ∀ i : Int, decodeRef (read_loop len i fp)
      = (fp.take (len - i).toNat).map (fun b => b % 256) := by
  have hdec : ∀ s, decodeRef s = pairBytes (hexDigitsOf s) := fun _ => rfl
  induction fp with
  | nil =>
    intro i
    have h2 : isspace '\n' = true := by decide
    unfold read_loop
    split_ifs <;> simp [decodeRef, List.filter_cons, h2, pairBytes]
  | cons c fp1 ih =>
    intro i
    by_cases hi : i < len
    · obtain ⟨sp, nl, hsp, hnl, heq⟩ := read_loop_cons len i c fp1 hi
      have hk : (len - i).toNat = (len - (i + 1)).toNat + 1 := by omega
      have h1 : isspace ' ' = true := by decide
      have hs : hexDigitsOf [' '] = [] := by simp [hexDigitsOf, List.filter_cons, h1]
      have hform : read_loop len i (c :: fp1)
          = [' '] ++ (fmt02X c ++ ((sp ++ nl) ++ read_loop len (i + 1) fp1)) := by
        rw [heq]
        simp
      rw [hk, List.take_succ_cons, List.map_cons, ← ih (i + 1), hdec, hdec, hform,
        hexDigitsOf_append, hexDigitsOf_append, hexDigitsOf_append, hs, hexDigitsOf_fmt02X,
        hexDigitsOf_gap hsp hnl]
      simp only [List.nil_append, List.cons_append, pairBytes, List.cons.injEq]
      exact ⟨by omega, rfl⟩
    · rw [read_loop_done len i _ hi]
      have hk : (len - i).toNat = 0 := by omega
      rw [hk]
      simp [decodeRef, pairBytes]

theorem read_loop_chars (len : Int) (fp : List Nat) :
    ∀ i : Int, ∀ c ∈ read_loop len i fp, isxdigit c = true ∨ isspace c = true := by
  induction fp with
  | nil =>
    intro i c hc
    unfold read_loop at hc
    split_ifs at hc
    · simp only [List.mem_singleton] at hc
      rw [hc]
      exact Or.inr (by decide)
    · simp at hc
  | cons b fp1 ih =>
    intro i c hc
    by_cases hi : i < len
    · obtain ⟨sp, nl, hsp, hnl, heq⟩ := read_loop_cons len i b fp1 hi
      rw [heq] at hc
      simp only [fmt02X, List.cons_append, List.nil_append, List.mem_cons, List.mem_append] at hc
      have hsp1 : ∀ x ∈ sp, isspace x = true := by
        intro x hx
        rcases hsp with rfl | rfl
        · simp at hx
        · simp only [List.mem_singleton] at hx
          rw [hx]
          decide
      have hnl1 : ∀ x ∈ nl, isspace x = true := by
        intro x hx
        rcases hnl with rfl | rfl
        · simp at hx
        · simp only [List.mem_singleton] at hx
          rw [hx]
          decide
      rcases hc with rfl | rfl | rfl | (hc | hc) | hc
      · exact Or.inr (by decide)
      · exact Or.inl (hexDigitUpper_digit _ (by omega)).2.1
      · exact Or.inl (hexDigitUpper_digit _ (by omega)).2.1
      · exact Or.inr (hsp1 c hc)
      · exact Or.inr (hnl1 c hc)
      · exact ih (i + 1) c hc
    · rw [read_loop_done len i _ hi] at hc
      simp at hc

theorem hex_to_uchar_read_loop (len i : Int) (fp : List Nat) :
    hex_to_uchar (read_loop len i fp)
      = .ok ((fp.take (len - i).toNat).map (fun b => b % 256),
          ((fp.take (len - i).toNat).map (fun b => b % 256)).length) := by
  rw [hex_to_uchar_eq_hexRun, (hexRun_spec _ (read_loop_chars len fp i)).1 [] 0]
  have hdec : ∀ s, pairBytes (hexDigitsOf s) = decodeRef s := fun _ => rfl
  simp only [List.nil_append, Nat.zero_add, hdec, decodeRef_read_loop]

/-- C19: for every non-empty byte sequence `B` (bytes below 256), the complete text that
`read_data` prints for a file with the content `B` (offset `0`, length `all`, as `read <file>`
does), with all its spaces and newlines, is accepted by `hex_to_uchar`, which returns exactly
`B` and the count `|B|`. -/
theorem dump_decodes_back (B : List Nat) (hne : B ≠ []) (hB : ∀ b ∈ B, b < 256) :
    ∃ out, read_data "0".toList "all".toList (some B) = .ok out ∧
      hex_to_uchar out = .ok (B, B.length) := by
  have hpos : 0 < B.length := List.length_pos.2 hne
  have hoff : get_long "0".toList = .ok 0 := by decide
  have hw : strcasecmp "all".toList "all".toList = 0 := by decide
  have hmap : B.map (fun b => b % 256) = B := by
    conv_rhs => rw [← List.map_id B]
    apply List.map_congr_left
    intro b hb
    exact Nat.mod_eq_of_lt (hB b hb)
  refine ⟨read_loop ((B.length : Int) - 0) 0 (B.drop (0 : Int).toNat), ?_, ?_⟩
  · rw [read_data_seek _ hoff (le_refl 0) (by omega), if_pos hw]
  · rw [hex_to_uchar_read_loop]
    have hk : ((B.length : Int) - 0 - 0).toNat = B.length := by omega
    simp only [Int.toNat_zero, List.drop_zero, hk, List.take_length, hmap]

/-- C19, witness: the twenty bytes `0, 13, 26, ...` (more than one line of the dump). -/
theorem dump_decodes_back_witness :
    ∃ out, read_data "0".toList "all".toList (some ((List.range 20).map (fun n => 13 * n)))
        = .ok out ∧
      hex_to_uchar out
        = .ok ((List.range 20).map (fun n => 13 * n),
            ((List.range 20).map (fun n => 13 * n)).length) :=
  dump_decodes_back ((List.range 20).map (fun n => 13 * n)) (by decide) (by decide)

end SimpleHexedit
